import Mathlib

/-!
# craifter: session persistence, playback and the command router

A shallow embedding of `src/main.cpp`, for libstdc++ on Linux.

* `std::string` is a list of characters (`Str`), one per byte; `size_t`
  values are natural numbers, `npos` is `2^64 - 1`, and the two
  subtractions/additions of the source that really wrap (`space1 + 1` after a
  failed search, and `cmd.size() - 2` on a one-character string) are taken
  modulo `2^64`.  Index arithmetic guarded by a successful search is written
  on `Nat`.
* Three calls of the source raise and nothing catches, so a raised exception
  ends the process and the router is a function into `Except Exn`:
  `std::string::substr` raises `std::out_of_range` when its start offset
  exceeds the size of the string; `fs::exists` and `fs::create_directories`
  raise `filesystem_error`.
* The disk is a tree of folders and regular files, given as a map from the
  resolved location of an entry (its names from the root down) to what it
  holds.  A path reaches the operating system as a C string, cut at its first
  NUL byte, and is resolved component by component: empty components and `.`
  stay, `..` steps up, a name steps down, and every step needs the folder it
  starts from.  There are no symbolic links.
* Whatever else makes the operating system refuse a call (a name beyond the
  limits of the file system, a missing permission, a path the library finds
  too deep) is the field `refused` of the world, a parameter of every
  theorem; `linuxRefused` gives the name limits of Linux for the examples.
  A stream that opened writes all it is given (the disk is not full).
* Standard output is the string of everything the program prints.  The
  commands handed to `system` are recorded as the C strings passed, and what
  an executed command does to the disk is the field `run` of the world.  An
  input stream delivers the content its file had when opened, which is what
  the loop of a playback reads as long as the commands it executes leave the
  log being played as it is; the theorem on playback assumes they do.
-/

namespace Craifter

/-- A `std::string`, as its sequence of characters. -/
abbrev Str := List Char

/-- The value `std::string::npos`, the largest `size_t`. -/
def npos : Nat := 2 ^ 64 - 1

/-- Reduction of a natural number to a `size_t`. -/
def wrap (n : Nat) : Nat := n % 2 ^ 64

/-- The two exceptions the program can raise; neither is caught. -/
inductive Exn where
  | out_of_range
  | filesystem_error
  deriving DecidableEq, Repr

deriving instance DecidableEq for Except

/-- The newline character written by `std::endl` and read by `std::getline`. -/
def nl : Char := Char.ofNat 10

/-- The double-quote character. -/
def dquote : Char := Char.ofNat 34

/-- The separator of path components. -/
def slash : Char := Char.ofNat 47

/-- The NUL byte that ends a C string. -/
def nul : Char := Char.ofNat 0

/-- The blank that separates the tokens of an input line. -/
def sp : Char := Char.ofNat 32

/-- The characters `trim` strips: space, tab, newline, carriage return, form
feed, vertical tab. -/
def whitespace : Str :=
  [Char.ofNat 32, Char.ofNat 9, Char.ofNat 10, Char.ofNat 13, Char.ofNat 12, Char.ofNat 11]

/-- Search of `c` in `l`, whose first character has index `i`. -/
def findAux (c : Char) : Str → Nat → Nat
  | [], _ => npos
  | x :: t, i => if x = c then i else findAux c t (i + 1)

/-- The call `s.find(c, pos)`: index of the first `c` at or after `pos`, or `npos`. -/
def find (s : Str) (c : Char) (pos : Nat) : Nat :=
  findAux c (s.drop pos) pos

/-- Search of the string `pat` in `l`, whose first character has index `i`. -/
def findStrAux (pat : Str) : Str → Nat → Nat
  | [], i => if pat = [] then i else npos
  | x :: t, i => if pat.isPrefixOf (x :: t) then i else findStrAux pat t (i + 1)

/-- The call `s.find(pat)`: index of the first occurrence of `pat`, or `npos`. -/
def findStr (s pat : Str) : Nat :=
  findStrAux pat s 0

/-- The call `s.substr(pos, n)`: raises `out_of_range` when `pos > s.size()`,
otherwise yields the `min n (size - pos)` characters from `pos` on. -/
def substr (s : Str) (pos n : Nat) : Except Exn Str :=
  if pos > s.length then .error .out_of_range
  else .ok ((s.drop pos).take n)

/-- The call `s.find_first_not_of(set)`. -/
def find_first_not_of (s set : Str) : Nat :=
  let k := s.findIdx (fun c => !(set.contains c))
  if k < s.length then k else npos

/-- The call `s.find_last_not_of(set)`. -/
def find_last_not_of (s set : Str) : Nat :=
  let k := s.reverse.findIdx (fun c => !(set.contains c))
  if k < s.length then s.length - 1 - k else npos

/-- The function `trim` of the source. -/
def trim (s : Str) : Except Exn Str :=
  let start := find_first_not_of s whitespace
  if start = npos then .ok []
  else
    let end_ := find_last_not_of s whitespace
    substr s start (end_ - start + 1)

/-! ## Todo list -/

/-- The enumeration `TaskStatus`. -/
inductive TaskStatus where
  | pending
  | in_progress
  | completed
  deriving DecidableEq, Repr

/-- The enumeration `Priority`. -/
inductive Priority where
  | low
  | medium
  | high
  deriving DecidableEq, Repr

/-- The class `TodoItem`; the constructor sets the status to `pending`. -/
structure TodoItem where
  id : Str
  task : Str
  status : TaskStatus
  priority : Priority
  deriving DecidableEq, Repr

/-- The constructor `TodoItem(i, t, p)`. -/
def TodoItem.new (i t : Str) (p : Priority) : TodoItem :=
  ⟨i, t, TaskStatus.pending, p⟩

/-- What `TodoItem::display` prints. -/
def TodoItem.display (it : TodoItem) : Str :=
  "[".toList ++ it.id ++ "] ".toList ++ it.task ++ " (".toList ++
    (match it.status with
      | .pending => "pending".toList
      | .in_progress => "in progress".toList
      | .completed => "completed".toList) ++
    ", ".toList ++
    (match it.priority with
      | .low => "low".toList
      | .medium => "medium".toList
      | .high => "high".toList) ++
    ")".toList ++ [nl]

/-- The class `TodoList`: its vector of items. -/
abbrev TodoList := List TodoItem

/-- The method `TodoList::add`. -/
def TodoList.add (l : TodoList) (id task : Str) (p : Priority) : TodoList :=
  l ++ [TodoItem.new id task p]

/-- The method `TodoList::updateStatus`: the first item with this id, if any,
gets the status. -/
def TodoList.updateStatus : TodoList → Str → TaskStatus → TodoList
  | [], _, _ => []
  | it :: rest, id, status =>
    if it.id = id then { it with status := status } :: rest
    else it :: TodoList.updateStatus rest id status

/-- What `TodoList::display` prints. -/
def TodoList.display (l : TodoList) : Str :=
  l.flatMap TodoItem.display

/-! ## Disk -/

/-- The pointer `s.c_str()` as the operating system reads it: the bytes before
the first NUL. -/
def c_str (s : Str) : Str :=
  s.takeWhile (fun c => c ≠ nul)

/-- What a location of the disk can hold. -/
inductive Node where
  | dir
  | file (content : Str)
  deriving DecidableEq, Repr

/-- The resolved location of an entry: its names from the root down. -/
abbrev Key := List Str

/-- The disk: what each location holds, if anything. -/
abbrev FS := Key → Option Node

/-- What the location `k` holds; the root is a folder. -/
def FS.nodeAt (fs : FS) (k : Key) : Option Node :=
  if k = [] then some Node.dir else fs k

/-- The disk with `k` now holding `n`. -/
def FS.set (fs : FS) (k : Key) (n : Node) : FS :=
  fun q => if q = k then some n else fs q

/-- The operator `/` of `std::filesystem::path`: an absolute right operand
replaces the left one; otherwise a separator is added when the left operand
ends in a file name. -/
def pathJoin (p q : Str) : Str :=
  if q.head? = some slash then q
  else if p ≠ [] ∧ p.getLast? ≠ some slash then p ++ slash :: q
  else p ++ q

/-- The components of a path: the text between its separators. -/
def components : Str → List Str
  | [] => [[]]
  | c :: t =>
    if c = slash then [] :: components t
    else
      match components t with
      | [] => [[c]]
      | x :: xs => (c :: x) :: xs

/-- The component `.`. -/
def dot : Str := ".".toList

/-- The component `..`. -/
def dotdot : Str := "..".toList

/-- One step of path resolution from the location `cur`, which must hold a
folder: an empty component and `.` stay, `..` steps up, a name steps down. -/
def walkStep (fs : FS) (cur : Key) (c : Str) : Option Key :=
  match fs.nodeAt cur with
  | some Node.dir =>
    if c = [] ∨ c = dot then some cur
    else if c = dotdot then some cur.dropLast
    else some (cur ++ [c])
  | _ => none

/-- Resolution of a list of components from the location `cur`. -/
def walk (fs : FS) (cur : Key) (cs : List Str) : Option Key :=
  cs.foldlM (walkStep fs) cur

/-- The location a C string names, when every folder on the way exists.
Every path the program forms is absolute, so the walk starts at the root. -/
def resolve (fs : FS) (p : Str) : Option Key :=
  if p = [] then none else walk fs [] (components p)

/-- What the path `p` names on the disk, if anything. -/
def lookup (fs : FS) (p : Str) : Option Node :=
  match resolve fs (c_str p) with
  | some k => fs.nodeAt k
  | none => none

/-- The calls the program makes to the operating system on a path. -/
inductive Op where
  | stat
  | openRead
  | openWrite
  | mkdir
  | mkdirs
  deriving DecidableEq, Repr

/-- The part of the program state outside the `AIHelper` object: the disk,
what was printed, the commands handed to `system` (oldest first), what
executing a command does to the disk, and the calls the operating system
refuses for a reason other than a missing entry. -/
structure World where
  fs : FS
  cout : Str
  shell : List Str
  run : Str → FS → FS
  refused : Op → FS → Str → Bool

/-- The statement `std::cout << text << std::endl`. -/
def World.print (w : World) (text : Str) : World :=
  { w with cout := w.cout ++ text ++ [nl] }

/-- The call `fs::exists(p)`, the throwing overload: true of folders and of
regular files, false of what cannot be found, and raising when the operating
system reports another error. -/
def fsExists (w : World) (p : Str) : Except Exn Bool :=
  if w.refused Op.stat w.fs (c_str p) then .error .filesystem_error
  else .ok (lookup w.fs p).isSome

/-- The file an output stream on `p` is attached to: a regular file, or a new
entry of an existing folder; `none` when the stream fails to open. -/
def openW (w : World) (p : Str) : Option Key :=
  if w.refused Op.openWrite w.fs (c_str p) then none
  else
    match resolve w.fs (c_str p) with
    | some k =>
      match w.fs.nodeAt k with
      | some Node.dir => none
      | _ => some k
    | none => none

/-- What the file at the location `k` holds (nothing when it is absent). -/
def contentAt (fs : FS) (k : Key) : Str :=
  match fs.nodeAt k with
  | some (Node.file c) => c
  | _ => []

/-- An `std::ofstream` opened on `p` with `std::ios::app`, written `text`
and closed.  A stream that failed to open ignores the write. -/
def appendFile (w : World) (p text : Str) : World :=
  match openW w p with
  | some k => { w with fs := w.fs.set k (Node.file (contentAt w.fs k ++ text)) }
  | none => w

/-- An `std::ofstream` opened on `p` (truncating), written `text` and closed. -/
def writeFile (w : World) (p text : Str) : World :=
  match openW w p with
  | some k => { w with fs := w.fs.set k (Node.file text) }
  | none => w

/-- The lines `std::getline` reads in turn from a stream with this content:
the text between newlines, a last unterminated line included. -/
def getlines : Str → List Str
  | [] => []
  | c :: t =>
    if c = nl then [] :: getlines t
    else
      match getlines t with
      | [] => [[c]]
      | l :: ls => (c :: l) :: ls

/-- The lines read by the `getline` loop over an `std::ifstream` on `p`; a
stream that fails to open, or is on a folder, yields none. -/
def readLines (w : World) (p : Str) : List Str :=
  if w.refused Op.openRead w.fs (c_str p) then []
  else
    match lookup w.fs p with
    | some (Node.file c) => getlines c
    | _ => []

/-- The prefixes of a path that end before a separator, and the path itself. -/
def prefixesFrom (acc : Str) : Str → List Str
  | [] => if acc = [] then [] else [acc]
  | c :: t =>
    if c = slash ∧ acc ≠ [] then acc :: prefixesFrom (acc ++ [c]) t
    else prefixesFrom (acc ++ [c]) t

/-- The paths `create_directories(p)` visits, outermost first. -/
def prefixes (p : Str) : List Str :=
  prefixesFrom [] p

/-- One element of `create_directories`: a missing folder is created, a folder
is kept, and a regular file, an unreachable entry or a refusal of the
operating system raises `filesystem_error`. -/
def mkdirStep (w : World) (q : Str) : Except Exn World :=
  if w.refused Op.mkdir w.fs (c_str q) then .error .filesystem_error
  else
    match resolve w.fs (c_str q) with
    | some k =>
      match w.fs.nodeAt k with
      | some Node.dir => .ok w
      | some (Node.file _) => .error .filesystem_error
      | none => .ok { w with fs := w.fs.set k Node.dir }
    | none => .error .filesystem_error

/-- The call `fs::create_directories(p)`, the throwing overload: every
element of `p` that does not exist is created; an empty path raises. -/
def create_directories (w : World) (p : Str) : Except Exn World :=
  if p = [] ∨ w.refused Op.mkdirs w.fs p = true then .error .filesystem_error
  else (prefixes p).foldlM mkdirStep w

/-! ## Sessions -/

/-- The default of the constructor parameter `base` and the value of
`AIHelper::sessions_base`. -/
def sessions_base : Str := "/root/craifter/sessions".toList

/-- The member `AIHelper::sessions_file`: the index file. -/
def sessions_file : Str := pathJoin sessions_base "sessions.txt".toList

/-- The class `Session`.  Every session of the program is built on
`sessions_base`, so its paths are functions of its name. -/
structure Session where
  name : Str
  deriving DecidableEq, Repr

/-- The method `Session::getName`. -/
def Session.getName (s : Session) : Str := s.name

/-- The member `base_path`. -/
def Session.base_path (s : Session) : Str := pathJoin sessions_base s.name

/-- The member `commands_path`. -/
def Session.commands_path (s : Session) : Str := pathJoin s.base_path "commands".toList

/-- The member `data_path`. -/
def Session.data_path (s : Session) : Str := pathJoin s.base_path "data".toList

/-- The member `results_path`. -/
def Session.results_path (s : Session) : Str := pathJoin s.base_path "results".toList

/-- The member `notes_path`. -/
def Session.notes_path (s : Session) : Str := pathJoin s.base_path "notes".toList

/-- The commands log, `commands_path / (name + "_command.txt")`. -/
def Session.commands_file (s : Session) : Str :=
  pathJoin s.commands_path (s.name ++ "_command.txt".toList)

/-- The notes log, `notes_path / (name + "_note.txt")`. -/
def Session.notes_file (s : Session) : Str :=
  pathJoin s.notes_path (s.name ++ "_note.txt".toList)

/-- The method `Session::createFolders`. -/
def Session.createFolders (s : Session) (w : World) : Except Exn World := do
  let w ← create_directories w s.commands_path
  let w ← create_directories w s.data_path
  let w ← create_directories w s.results_path
  create_directories w s.notes_path

/-- The method `Session::saveCommand`. -/
def Session.saveCommand (s : Session) (w : World) (cmd : Str) : World :=
  appendFile w s.commands_file (cmd ++ [nl])

/-- The method `Session::saveNote`. -/
def Session.saveNote (s : Session) (w : World) (note : Str) : World :=
  appendFile w s.notes_file (note ++ [nl])

/-- The method `Session::saveData`. -/
def Session.saveData (s : Session) (w : World) (data : Str) : World :=
  appendFile w (pathJoin s.data_path (s.name ++ "_data.txt".toList)) (data ++ [nl])

/-- The method `Session::saveResult`. -/
def Session.saveResult (s : Session) (w : World) (result : Str) : World :=
  appendFile w (pathJoin s.results_path (s.name ++ "_result.txt".toList)) (result ++ [nl])

/-- The quote stripping of `Session::playback`: `cmd.substr(1, cmd.size() - 2)`
when `cmd` is non-empty and begins and ends with a double quote. -/
def stripQuotes (cmd : Str) : Except Exn Str :=
  if cmd ≠ [] ∧ cmd.head? = some dquote ∧ cmd.getLast? = some dquote then
    substr cmd 1 (wrap (cmd.length + 2 ^ 64 - 2))
  else .ok cmd

/-- The string `cmd` that `playback` prints and passes on for a line of the
commands log. -/
def commandOf (line : Str) : Except Exn Str := do
  let cmd ← trim line
  stripQuotes cmd

/-- The call `system(cmd.c_str())`: the shell receives the bytes of `cmd`
before its first NUL, and the command does to the disk what `run` says. -/
def World.system (w : World) (cmd : Str) : World :=
  { w with shell := w.shell ++ [c_str cmd], fs := w.run (c_str cmd) w.fs }

/-- The body of the `getline` loop of `processFile`, for one line. -/
def playLine (execute : Bool) (w : World) (line : Str) : Except Exn World :=
  let w := w.print line
  if execute then do
    let cmd ← commandOf line
    let w := w.print ("Executing: ".toList ++ cmd)
    .ok (w.system cmd)
  else .ok w

/-- The lambda `processFile` of `Session::playback`. -/
def processFile (w : World) (path : Str) (execute : Bool) : Except Exn World := do
  let found ← fsExists w path
  if found then (readLines w path).foldlM (playLine execute) w
  else .ok w

/-- The method `Session::playback`. -/
def Session.playback (s : Session) (w : World) : Except Exn World := do
  let w := w.print ("Playback for session: ".toList ++ s.name)
  let w := w.print "Commands:".toList
  let w ← processFile w s.commands_file true
  let w := w.print "Notes:".toList
  processFile w s.notes_file false

/-! ## The helper object and the router -/

/-- The class `AIHelper`, together with the world it acts on. -/
structure AIHelper where
  todo_list : TodoList
  sessions : List Session
  world : World

/-- The names of the in-memory sessions, in list order. -/
def AIHelper.names (h : AIHelper) : List Str :=
  h.sessions.map Session.getName

/-- The text with one line per string. -/
def unlines (ls : List Str) : Str :=
  ls.flatMap (fun l => l ++ [nl])

/-- The loop body of `AIHelper::loadSessions`, for one line of the index:
`fs::exists` is asked only about a non-empty line. -/
def loadLine (w : World) (sessions : List Session) (line : Str) :
    Except Exn (List Session) :=
  if line = [] then .ok sessions
  else do
    let found ← fsExists w (pathJoin sessions_base line)
    if found then .ok (sessions ++ [⟨line⟩]) else .ok sessions

/-- The method `AIHelper::loadSessions`. -/
def loadSessions (h : AIHelper) : Except Exn AIHelper := do
  let found ← fsExists h.world sessions_file
  if found then do
    let sessions ← (readLines h.world sessions_file).foldlM (loadLine h.world) h.sessions
    .ok { h with sessions := sessions }
  else .ok h

/-- The method `AIHelper::saveSessions`. -/
def saveSessions (h : AIHelper) : AIHelper :=
  { h with world := writeFile h.world sessions_file (unlines h.names) }

/-- The lines `AIHelper::displayHelp` prints. -/
def helpLines : List String :=
  ["Craifter - AI-Powered Session and Task Management Tool",
   "Purpose: Manage tasks, sessions, and commands with AI-assisted organization, persistence, and execution.",
   "Commands:",
   "  addtodo <id> <task> [priority]  - Add a new todo item. Priority: low/medium/high (default: medium).",
   "                                  Purpose: Track individual tasks. Example: craifter addtodo fix_bug 'Fix login issue' high",
   "  updatetodo <id> <status>        - Update a todo's status. Status: pending/in_progress/completed.",
   "                                  Purpose: Mark task progress. Example: craifter updatetodo fix_bug completed",
   "  showtodos                      - Display all current todos.",
   "                                  Purpose: Review pending/in-progress tasks. Example: craifter showtodos",
   "  newsession <name>              - Create a new session (project) for organizing commands and notes.",
   "                                  Purpose: Start a new workflow container. Example: craifter newsession web_deployment",
   "  savecommand <session> <cmd>    - Save a command to a session for later execution.",
   "                                  Purpose: Store repeatable actions. Example: craifter savecommand web_deployment 'git push origin main'",
   "  savenote <session> <note>      - Save a note or description to a session.",
   "                                  Purpose: Add context or documentation. Example: craifter savenote web_deployment 'Deploy to production server'",
   "  playback <session>             - Display saved commands and notes for a session.",
   "                                  Purpose: Review session contents. Example: craifter playback web_deployment",
   "  listsessions                   - List all available sessions.",
   "                                  Purpose: See active projects. Example: craifter listsessions",
   "  runproject <session>           - Execute saved commands for a session (with playback).",
   "                                  Purpose: Automate session tasks. Example: craifter runproject web_deployment",
   "  exit                           - Exit the interactive mode.",
   "                                  Purpose: Close the tool. Example: craifter exit",
   "Usage: craifter <command> or run interactively."]

/-- The method `AIHelper::displayHelp`. -/
def displayHelp (h : AIHelper) : AIHelper :=
  { h with world := helpLines.foldl (fun w l => w.print l.toList) h.world }

/-- The loop of the `listsessions` branch: one printed line per session. -/
def listSessions (sessions : List Session) (w : World) : World :=
  sessions.foldl (fun w s => w.print ("  ".toList ++ s.getName)) w

/-- The lookup `std::find_if(sessions.begin(), sessions.end(), ...)` by name. -/
def findSession (h : AIHelper) (name : Str) : Option Session :=
  h.sessions.find? (fun s => s.getName = name)

/-- The `addtodo` branch of `processCommand`.  After a failed first search
`space1 + 1` wraps to `0`. -/
def doAddtodo (h : AIHelper) (cmd : Str) : Except Exn AIHelper :=
  let space1 := find cmd sp 8
  let space2 := find cmd sp (wrap (space1 + 1))
  if space1 ≠ npos ∧ space2 ≠ npos then do
    let id ← substr cmd 8 (space1 - 8)
    let task ← substr cmd (space1 + 1) (space2 - space1 - 1)
    let prio_str ← substr cmd (space2 + 1) npos
    let prio :=
      if prio_str = "high".toList then Priority.high
      else if prio_str = "low".toList then Priority.low
      else Priority.medium
    .ok { h with
      todo_list := h.todo_list.add id task prio
      world := h.world.print ("Added todo: ".toList ++ id) }
  else .ok h

/-- The `updatetodo` branch of `processCommand`. -/
def doUpdatetodo (h : AIHelper) (cmd : Str) : Except Exn AIHelper :=
  let space := find cmd sp 12
  if space ≠ npos then do
    let id ← substr cmd 12 (space - 12)
    let status_str ← substr cmd (space + 1) npos
    let status :=
      if status_str = "in_progress".toList then TaskStatus.in_progress
      else if status_str = "completed".toList then TaskStatus.completed
      else TaskStatus.pending
    .ok { h with
      todo_list := h.todo_list.updateStatus id status
      world := h.world.print ("Updated todo: ".toList ++ id) }
  else .ok h

/-- The `newsession` branch of `processCommand`. -/
def doNewsession (h : AIHelper) (cmd : Str) : Except Exn AIHelper := do
  let name ← substr cmd 11 npos
  let sess : Session := ⟨name⟩
  let w ← sess.createFolders h.world
  let h := saveSessions { h with
    sessions := h.sessions ++ [sess]
    world := w }
  .ok { h with world := h.world.print ("Created session: ".toList ++ name) }

/-- The `savecommand` branch of `processCommand`. -/
def doSavecommand (h : AIHelper) (cmd : Str) : Except Exn AIHelper :=
  let space := find cmd sp 12
  if space ≠ npos then do
    let sess_name ← substr cmd 12 (space - 12)
    let command ← substr cmd (space + 1) npos
    match findSession h sess_name with
    | some s => .ok { h with world := s.saveCommand h.world command }
    | none => .ok h
  else .ok h

/-- The `savenote` branch of `processCommand`. -/
def doSavenote (h : AIHelper) (cmd : Str) : Except Exn AIHelper :=
  let space := find cmd sp 10
  if space ≠ npos then do
    let sess_name ← substr cmd 10 (space - 10)
    let note ← substr cmd (space + 1) npos
    match findSession h sess_name with
    | some s => .ok { h with world := s.saveNote h.world note }
    | none => .ok h
  else .ok h

/-- The `playback` branch of `processCommand`. -/
def doPlayback (h : AIHelper) (cmd : Str) : Except Exn AIHelper := do
  let name ← substr cmd 9 npos
  match findSession h name with
  | some s => do
    let w ← s.playback h.world
    .ok { h with world := w }
  | none => .ok h

/-- The `runproject` branch of `processCommand`. -/
def doRunproject (h : AIHelper) (cmd : Str) : Except Exn AIHelper := do
  let name ← substr cmd 11 npos
  match findSession h name with
  | some s => do
    let w ← s.playback h.world
    .ok { h with world := w }
  | none => .ok { h with world := h.world.print "Project not found.".toList }

/-- The method `AIHelper::processCommand`: the router, for one input line. -/
def processCommand (h : AIHelper) (cmd : Str) : Except Exn AIHelper :=
  if cmd = "help".toList then .ok (displayHelp h)
  else if findStr cmd "addtodo".toList = 0 then doAddtodo h cmd
  else if findStr cmd "updatetodo ".toList = 0 then doUpdatetodo h cmd
  else if cmd = "showtodos".toList then
    .ok { h with world := { h.world with cout := h.world.cout ++ h.todo_list.display } }
  else if cmd = "listsessions".toList then
    .ok { h with world := listSessions h.sessions (h.world.print "Sessions:".toList) }
  else if findStr cmd "newsession ".toList = 0 then doNewsession h cmd
  else if findStr cmd "savecommand ".toList = 0 then doSavecommand h cmd
  else if findStr cmd "savenote ".toList = 0 then doSavenote h cmd
  else if findStr cmd "playback ".toList = 0 then doPlayback h cmd
  else if findStr cmd "runproject ".toList = 0 then doRunproject h cmd
  else .ok { h with world := h.world.print "Unknown command. Type 'help' for commands.".toList }

/-- The method `AIHelper::executeCommand`. -/
def executeCommand (h : AIHelper) (cmd : Str) : Except Exn AIHelper :=
  processCommand h cmd

/-- Routing of several input lines in turn by one helper object, as the
interactive loop does with the lines it reads. -/
def route (h : AIHelper) (lines : List Str) : Except Exn AIHelper :=
  lines.foldlM processCommand h

/-- The constructor `AIHelper::AIHelper`, run in the world `w`. -/
def AIHelper.init (w : World) : Except Exn AIHelper := do
  let w ← create_directories w sessions_base
  loadSessions ⟨[], [], w⟩

/-- The destructor `AIHelper::~AIHelper`. -/
def AIHelper.shutdown (h : AIHelper) : AIHelper :=
  saveSessions h

/-! ## Notions used to state the properties -/

/-- Whether `trim` strips the character. -/
def isSpace (c : Char) : Bool :=
  whitespace.contains c

/-- The line without its leading and trailing whitespace, as the specification
words it. -/
def trimSpec (s : Str) : Str :=
  (s.dropWhile isSpace).rdropWhile isSpace

/-- Whether a string is non-empty and begins and ends with a double quote. -/
def quoted (t : Str) : Bool :=
  decide (t ≠ [] ∧ t.head? = some dquote ∧ t.getLast? = some dquote)

/-- The command of a line of the commands log, as the specification words it:
the trimmed line, without its first and last character when it is quoted. -/
def shellForm (line : Str) : Str :=
  if quoted (trimSpec line) then (trimSpec line).tail.dropLast else trimSpec line

/-- The log at `p` consists of the newline-terminated lines `L` and can be
appended to: an output stream on `p` opens, and the file it is attached to
holds those lines (none when the file is yet to be created). -/
def LogHasLines (w : World) (p : Str) (L : List Str) : Prop :=
  match openW w p with
  | some k => contentAt w.fs k = unlines L
  | none => False

instance (w : World) (p : Str) (L : List Str) : Decidable (LogHasLines w p L) := by
  unfold LogHasLines
  cases openW w p <;> infer_instance

/-- The operating system refuses no call on the path `p`, whatever the disk. -/
def Accepts (w : World) (p : Str) : Prop :=
  ∀ op fs, w.refused op fs (c_str p) = false

/-- Whether the path names a folder. -/
def isFolder (fs : FS) (p : Str) : Bool :=
  decide (lookup fs p = some Node.dir)

/-- The longest name of an entry on the usual file systems of Linux. -/
def NAME_MAX : Nat := 255

/-- The size of the longest path Linux accepts, its final NUL included. -/
def PATH_MAX : Nat := 4096

/-- Whether resolution from `cur` looks up a name longer than `NAME_MAX` in
an existing folder. -/
def reachesLongName (fs : FS) : Key → List Str → Bool
  | _, [] => false
  | cur, c :: rest =>
    match fs.nodeAt cur with
    | some Node.dir =>
      if c = [] ∨ c = dot then reachesLongName fs cur rest
      else if c = dotdot then reachesLongName fs cur.dropLast rest
      else if NAME_MAX < c.length then true
      else reachesLongName fs (cur ++ [c]) rest
    | _ => false

/-- Whether the library finds the path too deep: more than 1000 of its
elements are missing. -/
def tooDeep (fs : FS) (p : Str) : Bool :=
  decide (1000 < ((prefixes p).filter (fun q =>
    (lookup fs q).isNone && !((components q).getLast? ∈ [some [], some dot, some dotdot]))).length)

/-- The refusals of Linux that depend on the path alone: the name limits, and
the depth limit of `create_directories`. -/
def linuxRefused : Op → FS → Str → Bool
  | Op.mkdirs, fs, p => tooDeep fs p
  | _, fs, p => decide (PATH_MAX ≤ p.length) || reachesLongName fs [] (components p)

/-- The disk on which only the sessions root exists. -/
def freshFS : FS := fun k =>
  if k = ["root".toList] ∨ k = ["root".toList, "craifter".toList]
      ∨ k = ["root".toList, "craifter".toList, "sessions".toList] then some Node.dir
  else none

/-- The world of the examples, on the disk `fs`: nothing printed or executed
yet, commands that leave the disk alone, and the refusals of Linux. -/
def worldOn (fs : FS) : World :=
  ⟨fs, [], [], fun _ d => d, linuxRefused⟩

/-- The helper as its constructor leaves it on `freshFS`: no todo, no session. -/
def fresh : AIHelper :=
  ⟨[], [], worldOn freshFS⟩

/-- The location of the index file. -/
def indexKey : Key :=
  ["root".toList, "craifter".toList, "sessions".toList, "sessions.txt".toList]

/-- A disk whose index file has the single line `sessions.txt` and that holds
no session folder. -/
def selfIndexFS : FS :=
  freshFS.set indexKey (Node.file "sessions.txt\n".toList)

/-- A session name of 244 letters: its folders are created, but the name of
its commands log is one byte beyond what the file system accepts. -/
def longName : Str := List.replicate 244 'a'

/-- A disk whose index file has the lines `a`, empty, `gone` and `a`, and
that holds the folder `a` and no entry `gone`. -/
def listedFS : FS :=
  (freshFS.set indexKey (Node.file "a\n\ngone\na\n".toList)).set
    ["root".toList, "craifter".toList, "sessions".toList, "a".toList] Node.dir

/-- A disk that holds the folders of the session `web` and no log. -/
def webFS : FS := fun k =>
  if k = ["root".toList, "craifter".toList, "sessions".toList, "web".toList]
      ∨ k = ["root".toList, "craifter".toList, "sessions".toList, "web".toList, "commands".toList]
      ∨ k = ["root".toList, "craifter".toList, "sessions".toList, "web".toList, "notes".toList]
  then some Node.dir
  else freshFS k

/-! # Theorems -/

/-! ## Searching and slicing -/

theorem npos_ne_zero : npos ≠ 0 := by
  norm_num [npos]

theorem findStrAux_ne_zero (pat l : Str) (i : Nat) (hi : 0 < i) : findStrAux pat l i ≠ 0 := by
  induction l generalizing i with
  | nil =>
    unfold findStrAux
    split_ifs
    · omega
    · exact npos_ne_zero
  | cons x t ih =>
    unfold findStrAux
    split_ifs
    · omega
    · exact ih (i + 1) (by omega)

/-- The test `s.find(pat) == 0` of the router holds exactly when `s` begins with `pat`. -/
theorem findStr_eq_zero_iff (s pat : Str) : findStr s pat = 0 ↔ pat <+: s := by
  unfold findStr
  cases s with
  | nil =>
    unfold findStrAux
    split_ifs with h
    · simp [h]
    · simp [h, npos_ne_zero]
  | cons x t =>
    unfold findStrAux
    split_ifs with h
    · simpa using h
    · have h2 := findStrAux_ne_zero pat t (0 + 1) (by omega)
      simp only [List.isPrefixOf_iff_prefix] at h
      simp [h2, h]

theorem findAux_bounds (c : Char) (l : Str) (i : Nat) (h : findAux c l i ≠ npos) :
    i ≤ findAux c l i ∧ findAux c l i < i + l.length := by
  induction l generalizing i with
  | nil => simp [findAux] at h
  | cons x t ih =>
    unfold findAux at h ⊢
    split_ifs with hx
    · simp
    · rw [if_neg hx] at h
      have := ih (i + 1) h
      simp only [List.length_cons]
      omega

/-- A successful `find` returns an index of the string, not before `pos`. -/
theorem find_bounds (s : Str) (c : Char) (pos : Nat) (h : find s c pos ≠ npos) :
    pos ≤ find s c pos ∧ find s c pos < s.length := by
  unfold find at h ⊢
  have hb := findAux_bounds c (s.drop pos) pos h
  simp only [List.length_drop] at hb
  by_cases hp : pos ≤ s.length
  · omega
  · have : s.drop pos = [] := List.drop_eq_nil_of_le (by omega)
    rw [this] at h
    simp [findAux] at h

theorem findAux_append (c : Char) (a b : Str) (i : Nat) (h : c ∉ a) :
    findAux c (a ++ c :: b) i = i + a.length := by
  induction a generalizing i with
  | nil => simp [findAux]
  | cons x t ih =>
    simp only [List.mem_cons, not_or] at h
    have hx : x ≠ c := fun e => h.1 e.symm
    show findAux c (x :: (t ++ c :: b)) i = i + (x :: t).length
    rw [findAux, if_neg hx, ih (i + 1) h.2, List.length_cons]
    omega

theorem findAux_not_mem (c : Char) (a : Str) (i : Nat) (h : c ∉ a) : findAux c a i = npos := by
  induction a generalizing i with
  | nil => rfl
  | cons x t ih =>
    simp only [List.mem_cons, not_or] at h
    have hx : x ≠ c := fun e => h.1 e.symm
    rw [findAux, if_neg hx]
    exact ih (i + 1) h.2

theorem substr_ok (s : Str) (pos n : Nat) (h : pos ≤ s.length) :
    substr s pos n = .ok ((s.drop pos).take n) := by
  unfold substr
  rw [if_neg (by omega)]

theorem find_first_not_of_lt (s set : Str) (h : find_first_not_of s set ≠ npos) :
    find_first_not_of s set < s.length := by
  unfold find_first_not_of at h ⊢
  simp only at h ⊢
  split_ifs with hk
  · exact hk
  · rw [if_neg hk] at h
    exact absurd rfl h

/-- The slice taken by `trim` starts inside the string. -/
theorem trim_ok (s : Str) : ∃ r, trim s = .ok r := by
  unfold trim
  simp only
  split_ifs with h
  · exact ⟨_, rfl⟩
  · exact ⟨_, substr_ok s _ _ (Nat.le_of_lt (find_first_not_of_lt s whitespace h))⟩

/-- The slice taken by the quote stripping starts inside the string. -/
theorem stripQuotes_ok (cmd : Str) : ∃ r, stripQuotes cmd = .ok r := by
  unfold stripQuotes
  split_ifs with h
  · refine ⟨_, substr_ok cmd 1 _ ?_⟩
    have : cmd ≠ [] := h.1
    cases cmd with
    | nil => exact absurd rfl this
    | cons x t => simp
  · exact ⟨_, rfl⟩

/-- A sequence of two steps that both return, returns. -/
theorem bind_ok_of_ok {α β : Type} (x : Except Exn α) (f : α → Except Exn β)
    (hret : ∃ a, x = Except.ok a) (hnext : ∀ a, ∃ b, f a = Except.ok b) :
    ∃ b, (x >>= f) = Except.ok b :=
  match x, hret with
  | _, ⟨a, rfl⟩ => hnext a

theorem commandOf_ok (line : Str) : ∃ r, commandOf line = .ok r :=
  bind_ok_of_ok _ _ (trim_ok line) stripQuotes_ok

theorem playLine_ok (e : Bool) (w : World) (line : Str) : ∃ w', playLine e w line = .ok w' := by
  cases e
  · exact ⟨_, rfl⟩
  · exact bind_ok_of_ok _ _ (commandOf_ok line) (fun _ => ⟨_, rfl⟩)

theorem foldlM_playLine_ok (e : Bool) (ls : List Str) (w : World) :
    ∃ w', ls.foldlM (playLine e) w = .ok w' := by
  induction ls generalizing w with
  | nil => exact ⟨w, rfl⟩
  | cons l t ih =>
    rw [List.foldlM_cons]
    exact bind_ok_of_ok _ _ (playLine_ok e w l) ih

/-! ## The router returns unless a call on the disk raises -/

/-- A sequence of steps that can only raise `filesystem_error` can only raise that. -/
theorem bind_cases {α β : Type} (x : Except Exn α) (f : α → Except Exn β)
    (hx : (∃ a, x = .ok a) ∨ x = .error .filesystem_error)
    (hf : ∀ a, (∃ b, f a = .ok b) ∨ f a = .error .filesystem_error) :
    (∃ b, (x >>= f) = .ok b) ∨ (x >>= f) = .error .filesystem_error := by
  rcases hx with ⟨a, rfl⟩ | rfl
  · exact hf a
  · exact Or.inr rfl

theorem fsExists_cases (w : World) (p : Str) :
    (∃ b, fsExists w p = .ok b) ∨ fsExists w p = .error .filesystem_error := by
  unfold fsExists
  split_ifs
  · exact Or.inr rfl
  · exact Or.inl ⟨_, rfl⟩

theorem processFile_cases (w : World) (path : Str) (e : Bool) :
    (∃ w', processFile w path e = .ok w') ∨ processFile w path e = .error .filesystem_error := by
  unfold processFile
  refine bind_cases _ _ (fsExists_cases w path) (fun found => ?_)
  cases found
  · exact Or.inl ⟨w, rfl⟩
  · exact Or.inl (foldlM_playLine_ok e _ w)

/-- A playback returns or raises `filesystem_error`; it never raises
`out_of_range`. -/
theorem playback_cases (s : Session) (w : World) :
    (∃ w', s.playback w = .ok w') ∨ s.playback w = .error .filesystem_error := by
  unfold Session.playback
  exact bind_cases _ _ (processFile_cases _ _ _) (fun _ => processFile_cases _ _ _)

theorem mkdirStep_cases (w : World) (q : Str) :
    (∃ w', mkdirStep w q = .ok w') ∨ mkdirStep w q = .error .filesystem_error := by
  unfold mkdirStep
  split_ifs
  · exact Or.inr rfl
  · split
    · split
      · exact Or.inl ⟨_, rfl⟩
      · exact Or.inr rfl
      · exact Or.inl ⟨_, rfl⟩
    · exact Or.inr rfl

theorem foldlM_mkdirStep_cases (l : List Str) (w : World) :
    (∃ w', l.foldlM mkdirStep w = .ok w') ∨ l.foldlM mkdirStep w = .error .filesystem_error := by
  induction l generalizing w with
  | nil => exact Or.inl ⟨w, rfl⟩
  | cons a t ih =>
    rw [List.foldlM_cons]
    exact bind_cases _ _ (mkdirStep_cases w a) ih

theorem create_directories_cases (w : World) (p : Str) :
    (∃ w', create_directories w p = .ok w') ∨
      create_directories w p = .error .filesystem_error := by
  unfold create_directories
  split_ifs
  · exact Or.inr rfl
  · exact foldlM_mkdirStep_cases _ w

theorem createFolders_cases (s : Session) (w : World) :
    (∃ w', s.createFolders w = .ok w') ∨ s.createFolders w = .error .filesystem_error := by
  unfold Session.createFolders
  exact bind_cases _ _ (create_directories_cases _ _) (fun _ =>
    bind_cases _ _ (create_directories_cases _ _) (fun _ =>
      bind_cases _ _ (create_directories_cases _ _) (fun _ => create_directories_cases _ _)))

theorem length_ge_of_findStr (cmd pat : Str) (h : findStr cmd pat = 0) :
    pat.length ≤ cmd.length :=
  ((findStr_eq_zero_iff cmd pat).1 h).length_le

theorem doAddtodo_ok (h : AIHelper) (cmd : Str) : ∃ h', doAddtodo h cmd = .ok h' := by
  unfold doAddtodo
  dsimp only
  by_cases h3 : find cmd sp 8 ≠ npos ∧ find cmd sp (wrap (find cmd sp 8 + 1)) ≠ npos
  · have b1 := find_bounds cmd sp 8 h3.1
    have b2 := find_bounds cmd sp _ h3.2
    rw [if_pos h3, substr_ok cmd 8 _ (by omega), substr_ok cmd (find cmd sp 8 + 1) _ (by omega),
      substr_ok cmd _ npos (by omega)]
    exact ⟨_, rfl⟩
  · rw [if_neg h3]
    exact ⟨_, rfl⟩

theorem doUpdatetodo_ok (h : AIHelper) (cmd : Str) : ∃ h', doUpdatetodo h cmd = .ok h' := by
  unfold doUpdatetodo
  dsimp only
  by_cases h3 : find cmd sp 12 ≠ npos
  · have b1 := find_bounds cmd sp 12 h3
    rw [if_pos h3, substr_ok cmd 12 _ (by omega), substr_ok cmd _ npos (by omega)]
    exact ⟨_, rfl⟩
  · rw [if_neg h3]
    exact ⟨_, rfl⟩

theorem doSavecommand_ok (h : AIHelper) (cmd : Str) : ∃ h', doSavecommand h cmd = .ok h' := by
  unfold doSavecommand
  dsimp only
  by_cases h3 : find cmd sp 12 ≠ npos
  · have b1 := find_bounds cmd sp 12 h3
    rw [if_pos h3, substr_ok cmd 12 _ (by omega), substr_ok cmd _ npos (by omega)]
    show ∃ h', (match findSession h _ with | some s => _ | none => _) = Except.ok h'
    split <;> exact ⟨_, rfl⟩
  · rw [if_neg h3]
    exact ⟨_, rfl⟩

theorem doSavenote_ok (h : AIHelper) (cmd : Str) : ∃ h', doSavenote h cmd = .ok h' := by
  unfold doSavenote
  dsimp only
  by_cases h3 : find cmd sp 10 ≠ npos
  · have b1 := find_bounds cmd sp 10 h3
    rw [if_pos h3, substr_ok cmd 10 _ (by omega), substr_ok cmd _ npos (by omega)]
    show ∃ h', (match findSession h _ with | some s => _ | none => _) = Except.ok h'
    split <;> exact ⟨_, rfl⟩
  · rw [if_neg h3]
    exact ⟨_, rfl⟩

/-- The session branches `playback` and `runproject` return, or raise with
the playback of the session they found. -/
theorem doPlayback_cases (h : AIHelper) (cmd : Str) (hk : findStr cmd "playback ".toList = 0) :
    (∃ h', doPlayback h cmd = .ok h') ∨
      ∃ name s, substr cmd 9 npos = .ok name ∧ findSession h name = some s ∧
        s.playback h.world = .error .filesystem_error ∧
        doPlayback h cmd = .error .filesystem_error := by
  have hl : 9 ≤ cmd.length := length_ge_of_findStr cmd _ hk
  unfold doPlayback
  rw [substr_ok cmd 9 npos hl]
  cases hs : findSession h ((cmd.drop 9).take npos) with
  | none =>
    left
    show ∃ h', (match findSession h ((cmd.drop 9).take npos) with
      | some s => _ | none => _) = Except.ok h'
    rw [hs]
    exact ⟨_, rfl⟩
  | some s =>
    rcases playback_cases s h.world with ⟨w', hw⟩ | hw
    · left
      show ∃ h', (match findSession h ((cmd.drop 9).take npos) with
        | some s => _ | none => _) = Except.ok h'
      rw [hs]
      show ∃ h', (s.playback h.world >>= _) = Except.ok h'
      rw [hw]
      exact ⟨_, rfl⟩
    · right
      refine ⟨_, s, rfl, hs, hw, ?_⟩
      show (match findSession h ((cmd.drop 9).take npos) with
        | some s => _ | none => _) = _
      rw [hs]
      show (s.playback h.world >>= _) = _
      rw [hw]
      rfl

theorem doRunproject_cases (h : AIHelper) (cmd : Str)
    (hk : findStr cmd "runproject ".toList = 0) :
    (∃ h', doRunproject h cmd = .ok h') ∨
      ∃ name s, substr cmd 11 npos = .ok name ∧ findSession h name = some s ∧
        s.playback h.world = .error .filesystem_error ∧
        doRunproject h cmd = .error .filesystem_error := by
  have hl : 11 ≤ cmd.length := length_ge_of_findStr cmd _ hk
  unfold doRunproject
  rw [substr_ok cmd 11 npos hl]
  cases hs : findSession h ((cmd.drop 11).take npos) with
  | none =>
    left
    show ∃ h', (match findSession h ((cmd.drop 11).take npos) with
      | some s => _ | none => _) = Except.ok h'
    rw [hs]
    exact ⟨_, rfl⟩
  | some s =>
    rcases playback_cases s h.world with ⟨w', hw⟩ | hw
    · left
      show ∃ h', (match findSession h ((cmd.drop 11).take npos) with
        | some s => _ | none => _) = Except.ok h'
      rw [hs]
      show ∃ h', (s.playback h.world >>= _) = Except.ok h'
      rw [hw]
      exact ⟨_, rfl⟩
    · right
      refine ⟨_, s, rfl, hs, hw, ?_⟩
      show (match findSession h ((cmd.drop 11).take npos) with
        | some s => _ | none => _) = _
      rw [hs]
      show (s.playback h.world >>= _) = _
      rw [hw]
      rfl

theorem doNewsession_cases (h : AIHelper) (cmd : Str)
    (hk : findStr cmd "newsession ".toList = 0) :
    (∃ h', doNewsession h cmd = .ok h') ∨
      ∃ name, substr cmd 11 npos = .ok name ∧
        Session.createFolders ⟨name⟩ h.world = .error .filesystem_error ∧
        doNewsession h cmd = .error .filesystem_error := by
  have hl : 11 ≤ cmd.length := length_ge_of_findStr cmd _ hk
  unfold doNewsession
  rw [substr_ok cmd 11 npos hl]
  rcases createFolders_cases ⟨(cmd.drop 11).take npos⟩ h.world with ⟨w', hfs⟩ | hfs
  · left
    show ∃ h', (Session.createFolders ⟨(cmd.drop 11).take npos⟩ h.world >>= _) = Except.ok h'
    rw [hfs]
    exact ⟨_, rfl⟩
  · right
    refine ⟨_, rfl, hfs, ?_⟩
    show (Session.createFolders ⟨(cmd.drop 11).take npos⟩ h.world >>= _) = _
    rw [hfs]
    rfl

/-- Routing either returns, or raises `filesystem_error` from a call on the disk. -/
theorem processCommand_cases (h : AIHelper) (cmd : Str) :
    (∃ h', processCommand h cmd = .ok h') ∨
      (processCommand h cmd = .error .filesystem_error ∧
        ((findStr cmd "newsession ".toList = 0 ∧
          ∃ name, substr cmd 11 npos = .ok name ∧
            Session.createFolders ⟨name⟩ h.world = .error .filesystem_error) ∨
        (findStr cmd "playback ".toList = 0 ∧
          ∃ name s, substr cmd 9 npos = .ok name ∧ findSession h name = some s ∧
            s.playback h.world = .error .filesystem_error) ∨
        (findStr cmd "runproject ".toList = 0 ∧
          ∃ name s, substr cmd 11 npos = .ok name ∧ findSession h name = some s ∧
            s.playback h.world = .error .filesystem_error))) := by
  unfold processCommand
  by_cases h1 : cmd = "help".toList
  · rw [if_pos h1]; exact Or.inl ⟨_, rfl⟩
  rw [if_neg h1]
  by_cases h2 : findStr cmd "addtodo".toList = 0
  · rw [if_pos h2]; exact Or.inl (doAddtodo_ok h cmd)
  rw [if_neg h2]
  by_cases h3 : findStr cmd "updatetodo ".toList = 0
  · rw [if_pos h3]; exact Or.inl (doUpdatetodo_ok h cmd)
  rw [if_neg h3]
  by_cases h4 : cmd = "showtodos".toList
  · rw [if_pos h4]; exact Or.inl ⟨_, rfl⟩
  rw [if_neg h4]
  by_cases h5 : cmd = "listsessions".toList
  · rw [if_pos h5]; exact Or.inl ⟨_, rfl⟩
  rw [if_neg h5]
  by_cases h6 : findStr cmd "newsession ".toList = 0
  · rw [if_pos h6]
    rcases doNewsession_cases h cmd h6 with hok | ⟨name, hn, hc, he⟩
    · exact Or.inl hok
    · exact Or.inr ⟨he, Or.inl ⟨h6, name, hn, hc⟩⟩
  rw [if_neg h6]
  by_cases h7 : findStr cmd "savecommand ".toList = 0
  · rw [if_pos h7]; exact Or.inl (doSavecommand_ok h cmd)
  rw [if_neg h7]
  by_cases h8 : findStr cmd "savenote ".toList = 0
  · rw [if_pos h8]; exact Or.inl (doSavenote_ok h cmd)
  rw [if_neg h8]
  by_cases h9 : findStr cmd "playback ".toList = 0
  · rw [if_pos h9]
    rcases doPlayback_cases h cmd h9 with hok | ⟨name, s, hn, hs, hp, he⟩
    · exact Or.inl hok
    · exact Or.inr ⟨he, Or.inr (Or.inl ⟨h9, name, s, hn, hs, hp⟩)⟩
  rw [if_neg h9]
  by_cases h10 : findStr cmd "runproject ".toList = 0
  · rw [if_pos h10]
    rcases doRunproject_cases h cmd h10 with hok | ⟨name, s, hn, hs, hp, he⟩
    · exact Or.inl hok
    · exact Or.inr ⟨he, Or.inr (Or.inr ⟨h10, name, s, hn, hs, hp⟩)⟩
  rw [if_neg h10]
  exact Or.inl ⟨_, rfl⟩

theorem processFile_raises (w : World) (path : Str) (e : Bool)
    (h : processFile w path e = .error .filesystem_error) :
    w.refused Op.stat w.fs (c_str path) = true := by
  unfold processFile fsExists at h
  cases hr : w.refused Op.stat w.fs (c_str path) with
  | true => rfl
  | false =>
    rw [hr] at h
    simp only [Bool.false_eq_true, if_false] at h
    cases hf : (lookup w.fs path).isSome with
    | false =>
      rw [hf] at h
      cases h
    | true =>
      rw [hf] at h
      obtain ⟨w', hw⟩ := foldlM_playLine_ok e (readLines w path) w
      have h2 : (readLines w path).foldlM (playLine e) w = Except.error Exn.filesystem_error := h
      rw [hw] at h2
      cases h2

/-- A playback raises only when `fs::exists` is refused on one of the two logs. -/
theorem playback_raises (s : Session) (w : World)
    (h : s.playback w = .error .filesystem_error) :
    w.refused Op.stat w.fs (c_str s.commands_file) = true ∨
      ∃ w2 : World, w2.refused Op.stat w2.fs (c_str s.notes_file) = true := by
  unfold Session.playback at h
  cases h1 : processFile ((w.print ("Playback for session: ".toList ++ s.name)).print
      "Commands:".toList) s.commands_file true with
  | error e =>
    rcases processFile_cases ((w.print ("Playback for session: ".toList ++ s.name)).print
      "Commands:".toList) s.commands_file true with ⟨w', hw⟩ | hw
    · rw [hw] at h1; cases h1
    · have hr := processFile_raises _ _ _ hw
      exact Or.inl hr
  | ok w1 =>
    right
    have h2 : (processFile ((w.print ("Playback for session: ".toList ++ s.name)).print
      "Commands:".toList) s.commands_file true >>= fun w1 =>
        processFile (w1.print "Notes:".toList) s.notes_file false)
        = Except.error Exn.filesystem_error := h
    rw [h1] at h2
    exact ⟨_, processFile_raises _ _ _ h2⟩

set_option maxRecDepth 1000000 in
/-- Routing does not return from the playback of a registered session whose
log name is beyond `NAME_MAX`: `newsession` creates the folders of the
244-letter name, and `fs::exists` on its commands log raises. -/
theorem playback_of_long_name_raises :
    (route fresh ["newsession ".toList ++ longName]).map
        (fun h => (h.names, isFolder h.world.fs (Session.commands_path ⟨longName⟩)))
      = .ok ([longName], true) ∧
    (route fresh ["newsession ".toList ++ longName, "playback ".toList ++ longName]).map
        (fun _ => ()) = .error .filesystem_error := by
  decide

/-! ## Trimming and quote stripping -/

theorem two_pow_64 : (2 : Nat) ^ 64 = 18446744073709551616 := by
  norm_num

theorem npos_eq : npos = 18446744073709551615 := by
  norm_num [npos]

theorem findIdx_skip (p : Char → Bool) (a : Str) (x : Char) (r : Str)
    (ha : ∀ c ∈ a, p c = false) (hx : p x = true) :
    (a ++ x :: r).findIdx p = a.length := by
  induction a with
  | nil =>
    rw [List.nil_append, List.findIdx_cons, hx]
    rfl
  | cons y t ih =>
    have hy : p y = false := ha y (List.mem_cons_self _ _)
    have ht : ∀ c ∈ t, p c = false := fun c hc => ha c (List.mem_cons_of_mem _ hc)
    rw [List.cons_append, List.findIdx_cons, ih ht, hy]
    rfl

theorem not_contains_of_isSpace (c : Char) (h : isSpace c = true) :
    (fun c => !(whitespace.contains c)) c = false := by
  unfold isSpace at h
  show (!(whitespace.contains c)) = false
  rw [h]
  rfl

theorem not_contains_of_not_isSpace (c : Char) (h : isSpace c = false) :
    (fun c => !(whitespace.contains c)) c = true := by
  unfold isSpace at h
  show (!(whitespace.contains c)) = true
  rw [h]
  rfl

theorem trim_all_space (s : Str) (h : ∀ c ∈ s, isSpace c = true) : trim s = .ok [] := by
  have hk : s.findIdx (fun c => !(whitespace.contains c)) = s.length :=
    List.findIdx_eq_length_of_false (fun c hc => not_contains_of_isSpace c (h c hc))
  unfold trim find_first_not_of
  simp only [hk, lt_irrefl, if_false, if_true]

/-- The slice `trim` takes from leading blanks, a core and trailing blanks is the core. -/
theorem trim_decomp (a b r r' : Str) (x y : Char)
    (ha : ∀ c ∈ a, isSpace c = true) (hb : ∀ c ∈ b, isSpace c = true)
    (hx : isSpace x = false) (hy : isSpace y = false) (hm : x :: r = r' ++ [y])
    (hlen : (a ++ (x :: r) ++ b).length ≤ npos) :
    trim (a ++ (x :: r) ++ b) = .ok (x :: r) := by
  have hk : (a ++ (x :: r) ++ b).findIdx (fun c => !(whitespace.contains c)) = a.length := by
    rw [List.append_assoc, List.cons_append]
    exact findIdx_skip _ a x _ (fun c hc => not_contains_of_isSpace c (ha c hc))
      (not_contains_of_not_isSpace x hx)
  have hrev : (a ++ (x :: r) ++ b).reverse = b.reverse ++ y :: (r'.reverse ++ a.reverse) := by
    rw [hm]
    simp
  have hk' : (a ++ (x :: r) ++ b).reverse.findIdx (fun c => !(whitespace.contains c))
      = b.length := by
    rw [hrev]
    have := findIdx_skip (fun c => !(whitespace.contains c)) b.reverse y (r'.reverse ++ a.reverse)
      (fun c hc => not_contains_of_isSpace c (hb c (List.mem_reverse.1 hc)))
      (not_contains_of_not_isSpace y hy)
    rw [this, List.length_reverse]
  have hl : (a ++ (x :: r) ++ b).length = a.length + (r.length + 1) + b.length := by
    simp only [List.length_append, List.length_cons]
  unfold trim find_first_not_of find_last_not_of
  simp only [hk, hk']
  have h1 : a.length < (a ++ (x :: r) ++ b).length := by omega
  have h2 : b.length < (a ++ (x :: r) ++ b).length := by omega
  rw [if_pos h1, if_pos h2, if_neg (by rw [npos_eq] at *; omega)]
  rw [substr_ok _ _ _ (by omega), hl]
  have hc : a.length + (r.length + 1) + b.length - 1 - b.length - a.length + 1 = (x :: r).length := by
    simp only [List.length_cons]
    omega
  rw [hc, List.append_assoc, List.drop_left, List.take_left]

theorem rdropWhile_append_rtakeWhile (p : Char → Bool) (t : Str) :
    t.rdropWhile p ++ t.rtakeWhile p = t := by
  have h := List.takeWhile_append_dropWhile p t.reverse
  unfold List.rdropWhile List.rtakeWhile
  rw [← List.reverse_append, h, List.reverse_reverse]

theorem trimSpec_length_le (s : Str) : (trimSpec s).length ≤ s.length := by
  unfold trimSpec
  have h1 : ((s.dropWhile isSpace).rdropWhile isSpace).length ≤ (s.dropWhile isSpace).length :=
    (List.rdropWhile_prefix isSpace _).length_le
  have h2 : (s.dropWhile isSpace).length ≤ s.length :=
    (List.dropWhile_suffix isSpace).length_le
  omega

/-- The function `trim` strips the leading and the trailing whitespace. -/
theorem trim_eq_trimSpec (s : Str) (hlen : s.length ≤ npos) : trim s = .ok (trimSpec s) := by
  unfold trimSpec
  by_cases ht : s.dropWhile isSpace = []
  · rw [ht, List.rdropWhile_nil]
    exact trim_all_space s (fun c hc => List.dropWhile_eq_nil_iff.1 ht c hc)
  · have hs : s.takeWhile isSpace ++ s.dropWhile isSpace = s := List.takeWhile_append_dropWhile _ _
    have hhead : isSpace ((s.dropWhile isSpace).head ht) = false := by
      have := List.head_dropWhile_not isSpace s ht
      simpa using this
    have hm : (s.dropWhile isSpace).rdropWhile isSpace ≠ [] := by
      intro h0
      have hall := List.rdropWhile_eq_nil_iff.1 h0
      have := hall _ (List.head_mem ht)
      rw [this] at hhead
      exact Bool.noConfusion hhead
    have hlast := List.rdropWhile_last_not isSpace (s.dropWhile isSpace) hm
    have hdec := rdropWhile_append_rtakeWhile isSpace (s.dropWhile isSpace)
    obtain ⟨x, r, hxr⟩ := List.exists_cons_of_ne_nil hm
    have hx : isSpace x = false := by
      obtain ⟨b', hb'⟩ : ∃ b', s.dropWhile isSpace = (x :: r) ++ b' :=
        ⟨_, by rw [← hxr]; exact hdec.symm⟩
      have e1 : some ((s.dropWhile isSpace).head ht) = some x := by
        rw [← List.head?_eq_head, hb']
        rfl
      rw [← Option.some.inj e1]; exact hhead
    obtain ⟨r', y, hry⟩ : ∃ r' y, (s.dropWhile isSpace).rdropWhile isSpace = r' ++ [y] :=
      ⟨_, _, (List.dropLast_append_getLast hm).symm⟩
    have hy : isSpace y = false := by
      have e2 : ((s.dropWhile isSpace).rdropWhile isSpace).getLast hm = y := by
        simp [hry]
      rw [e2] at hlast
      simpa using hlast
    have key := trim_decomp (s.takeWhile isSpace) ((s.dropWhile isSpace).rtakeWhile isSpace)
      r r' x y (fun c hc => List.mem_takeWhile_imp hc) (fun c hc => List.mem_rtakeWhile_imp hc)
      hx hy (by rw [← hxr, hry])
    have hs' : s.takeWhile isSpace ++ (x :: r) ++ (s.dropWhile isSpace).rtakeWhile isSpace = s := by
      rw [← hxr, List.append_assoc, hdec, hs]
    rw [hs'] at key
    rw [hxr]
    exact key hlen

theorem tail_dropLast_eq (t : Str) : t.tail.dropLast = (t.drop 1).take (t.length - 2) := by
  cases t with
  | nil => rfl
  | cons x r =>
    rw [List.tail_cons, List.dropLast_eq_take, List.length_cons]
    rfl

/-- The quote stripping removes the first and the last character of a quoted
string, which leaves nothing of a lone quote. -/
theorem stripQuotes_eq (t : Str) (hlen : t.length < 2 ^ 64) :
    stripQuotes t = .ok (if quoted t then t.tail.dropLast else t) := by
  unfold stripQuotes quoted
  by_cases hq : t ≠ [] ∧ t.head? = some dquote ∧ t.getLast? = some dquote
  · rw [if_pos hq, if_pos (decide_eq_true hq)]
    have hpos : 1 ≤ t.length := by
      cases t with
      | nil => exact absurd rfl hq.1
      | cons x r => simp
    have key : (t.drop 1).take (wrap (t.length + 2 ^ 64 - 2)) = (t.drop 1).take (t.length - 2) := by
      by_cases h2 : 2 ≤ t.length
      · have : wrap (t.length + 2 ^ 64 - 2) = t.length - 2 := by
          unfold wrap
          rw [two_pow_64] at hlen ⊢
          omega
        rw [this]
      · have hd : t.drop 1 = [] := List.drop_eq_nil_of_le (by omega)
        rw [hd, List.take_nil, List.take_nil]
    rw [substr_ok t 1 _ hpos, tail_dropLast_eq, key]
  · rw [if_neg hq, if_neg (by simpa using hq)]

/-- The code's `commandOf` computes the specification's `shellForm`. -/
theorem commandOf_eq_shellForm (line : Str) (hlen : line.length < 2 ^ 64) :
    commandOf line = .ok (shellForm line) := by
  have h1 : line.length ≤ npos := by
    rw [npos_eq]; rw [two_pow_64] at hlen; omega
  have h2 : (trimSpec line).length < 2 ^ 64 := lt_of_le_of_lt (trimSpec_length_le line) hlen
  unfold commandOf shellForm
  rw [trim_eq_trimSpec line h1]
  exact stripQuotes_eq (trimSpec line) h2

/-- A quoted string of two or more characters is its `tail.dropLast` between quotes. -/
theorem quoted_shape (t : Str) (hq : quoted t = true) (h2 : 2 ≤ t.length) :
    t = dquote :: t.tail.dropLast ++ [dquote] := by
  unfold quoted at hq
  have hq' := of_decide_eq_true hq
  obtain ⟨r, hr⟩ := List.head?_eq_some_iff.1 hq'.2.1
  subst hr
  have hr0 : r ≠ [] := by
    intro h0
    subst h0
    simp at h2
  have hl : (dquote :: r).getLast? = r.getLast? := by
    cases r with
    | nil => exact absurd rfl hr0
    | cons a b => rfl
  have hlast : r.getLast? = some dquote := by rw [← hl]; exact hq'.2.2
  obtain ⟨r', hr'⟩ := List.getLast?_eq_some_iff.1 hlast
  subst hr'
  simp

theorem c_str_of_no_nul (s : Str) (h : nul ∉ s) : c_str s = s := by
  unfold c_str
  rw [List.takeWhile_eq_self_iff]
  intro c hc
  exact decide_eq_true (fun e => h (e ▸ hc))

theorem c_str_cut (a b : Str) (h : nul ∉ a) : c_str (a ++ nul :: b) = a := by
  unfold c_str
  induction a with
  | nil => simp [List.takeWhile]
  | cons x t ih =>
    have hx : x ≠ nul := fun e => h (by rw [e]; exact List.mem_cons_self _ _)
    have ht : nul ∉ t := fun m => h (List.mem_cons_of_mem _ m)
    show List.takeWhile _ (x :: (t ++ nul :: b)) = _
    rw [List.takeWhile_cons, if_pos (decide_eq_true hx), ih ht]

theorem playLine_true (w : World) (l : Str) (hl : l.length < 2 ^ 64) :
    playLine true w l
      = .ok (((w.print l).print ("Executing: ".toList ++ shellForm l)).system (shellForm l)) := by
  unfold playLine
  simp only [if_true]
  rw [commandOf_eq_shellForm l hl]
  rfl

/-- C3 (amended).  For every line of the commands log (shorter than `2^64`)
the loop body of the playback returns, and the shell receives one command:
the bytes before the first NUL of the string `out`, which is the line with its
leading and trailing whitespace stripped and then: without its first and its
last character when that trimmed string has two or more characters and begins
and ends with a double quote; empty when the trimmed string is a lone double
quote; and unchanged otherwise. -/
theorem commandOf_spec (w : World) (line : Str) (hlen : line.length < 2 ^ 64) :
    ∃ out w', commandOf line = .ok out ∧ playLine true w line = .ok w' ∧
      w'.shell = w.shell ++ [c_str out] ∧
      (nul ∉ out → c_str out = out) ∧
      (∀ a b, out = a ++ nul :: b → nul ∉ a → c_str out = a) ∧
      (quoted (trimSpec line) = true → 2 ≤ (trimSpec line).length →
        trimSpec line = dquote :: out ++ [dquote] ∧ out.length + 2 = (trimSpec line).length) ∧
      (trimSpec line = [dquote] → out = []) ∧
      (quoted (trimSpec line) = false → out = trimSpec line) := by
  refine ⟨shellForm line, _, commandOf_eq_shellForm line hlen, playLine_true w line hlen, rfl,
    c_str_of_no_nul _, ?_, ?_, ?_, ?_⟩
  · intro a b e ha
    rw [e]
    exact c_str_cut a b ha
  · intro hq h2
    have hs : shellForm line = (trimSpec line).tail.dropLast := by
      unfold shellForm; rw [if_pos hq]
    have hshape := quoted_shape (trimSpec line) hq h2
    rw [hs]
    refine ⟨hshape, ?_⟩
    have := congrArg List.length hshape
    simp only [List.length_cons, List.length_append, List.length_nil] at this
    omega
  · intro h1
    unfold shellForm
    rw [h1]
    decide
  · intro hq
    unfold shellForm
    rw [hq]
    rfl

/-- C3, witness: the quoted line of the specification's example. -/
theorem commandOf_spec_witness :
    "  \"ls -la\" ".toList.length < 2 ^ 64 ∧
    ∃ out w', commandOf "  \"ls -la\" ".toList = .ok out ∧
      playLine true (worldOn freshFS) "  \"ls -la\" ".toList = .ok w' ∧
      w'.shell = (worldOn freshFS).shell ++ [c_str out] ∧
      (nul ∉ out → c_str out = out) ∧
      (∀ a b, out = a ++ nul :: b → nul ∉ a → c_str out = a) ∧
      (quoted (trimSpec "  \"ls -la\" ".toList) = true → 2 ≤ (trimSpec "  \"ls -la\" ".toList).length →
        trimSpec "  \"ls -la\" ".toList = dquote :: out ++ [dquote] ∧
          out.length + 2 = (trimSpec "  \"ls -la\" ".toList).length) ∧
      (trimSpec "  \"ls -la\" ".toList = [dquote] → out = []) ∧
      (quoted (trimSpec "  \"ls -la\" ".toList) = false → out = trimSpec "  \"ls -la\" ".toList) :=
  ⟨by decide, commandOf_spec _ _ (by decide)⟩

/-- C3 as stated fails on the line that is a lone double quote: the trimmed
string is non-empty and begins and ends with a double quote, yet the string
handed to the shell is empty, one character shorter and not two. -/
theorem lone_quote_loses_one_character :
    trimSpec [dquote] ≠ [] ∧ (trimSpec [dquote]).head? = some dquote ∧
    (trimSpec [dquote]).getLast? = some dquote ∧
    commandOf [dquote] = .ok [] ∧
    (playLine true (worldOn freshFS) [dquote]).map (fun w => w.shell) = .ok [[]] ∧
    ¬ (([] : Str).length + 2 = (trimSpec [dquote]).length) ∧
    ([] : Str).length + 1 = (trimSpec [dquote]).length := by
  decide

/-- The three lines of the specification's example: quoted, bare, unbalanced. -/
theorem commandOf_examples :
    (playLine true (worldOn freshFS) "\"ls -la\"".toList).map (fun w => w.shell)
      = .ok ["ls -la".toList] ∧
    (playLine true (worldOn freshFS) "ls -la".toList).map (fun w => w.shell)
      = .ok ["ls -la".toList] ∧
    (playLine true (worldOn freshFS) "\"ls -la".toList).map (fun w => w.shell)
      = .ok ["\"ls -la".toList] := by
  decide

/-- A line holding a NUL byte: the shell receives the bytes before it, while
the execution notice prints the whole string. -/
theorem nul_cuts_the_command :
    commandOf ("echo a".toList ++ nul :: "b".toList) = .ok ("echo a".toList ++ nul :: "b".toList) ∧
    (playLine true (worldOn freshFS) ("echo a".toList ++ nul :: "b".toList)).map
        (fun w => (w.shell, w.cout))
      = .ok (["echo a".toList],
          "echo a".toList ++ nul :: "b".toList ++ [nl] ++
            ("Executing: echo a".toList ++ nul :: "b".toList ++ [nl])) := by
  decide

/-! ## Resolution of paths -/

theorem walkStep_congr (fs fs' : FS) (cur : Key) (c : Str)
    (h : fs.nodeAt cur = some Node.dir ↔ fs'.nodeAt cur = some Node.dir) :
    walkStep fs cur c = walkStep fs' cur c := by
  unfold walkStep
  by_cases hd : fs.nodeAt cur = some Node.dir
  · rw [hd, h.1 hd]
  · have hd' : fs'.nodeAt cur ≠ some Node.dir := fun e => hd (h.2 e)
    have e1 : ∀ (o : Option Node), o ≠ some Node.dir →
        (match o with
          | some Node.dir =>
            if c = [] ∨ c = dot then some cur
            else if c = dotdot then some cur.dropLast
            else some (cur ++ [c])
          | _ => none) = none := by
      intro o ho
      cases o with
      | none => rfl
      | some n =>
        cases n with
        | dir => exact absurd rfl ho
        | file t => rfl
    rw [e1 _ hd, e1 _ hd']

/-- Resolution depends on the disk only through which locations hold folders. -/
theorem walk_congr (fs fs' : FS)
    (h : ∀ q, fs.nodeAt q = some Node.dir ↔ fs'.nodeAt q = some Node.dir)
    (cs : List Str) (cur : Key) : walk fs cur cs = walk fs' cur cs := by
  induction cs generalizing cur with
  | nil => rfl
  | cons c t ih =>
    unfold walk at ih ⊢
    rw [List.foldlM_cons, List.foldlM_cons, walkStep_congr fs fs' cur c (h cur)]
    cases walkStep fs' cur c with
    | none => rfl
    | some k => exact ih k

theorem resolve_congr (fs fs' : FS)
    (h : ∀ q, fs.nodeAt q = some Node.dir ↔ fs'.nodeAt q = some Node.dir) (p : Str) :
    resolve fs p = resolve fs' p := by
  unfold resolve
  split_ifs
  · rfl
  · exact walk_congr fs fs' h _ _

theorem nodeAt_set (fs : FS) (k : Key) (n : Node) (q : Key) (hk : k ≠ []) :
    (fs.set k n).nodeAt q = if q = k then some n else fs.nodeAt q := by
  unfold FS.nodeAt FS.set
  by_cases hq : q = []
  · rw [if_pos hq, if_pos hq, if_neg (by rw [hq]; exact fun e => hk e.symm)]
  · rw [if_neg hq, if_neg hq]

theorem ne_nil_of_not_dir (fs : FS) (k : Key) (h : fs.nodeAt k ≠ some Node.dir) : k ≠ [] := by
  intro e
  apply h
  unfold FS.nodeAt
  rw [if_pos e]

/-- Writing a file where no folder was leaves the folders as they were. -/
theorem set_file_dirs (fs : FS) (k : Key) (t : Str) (h : fs.nodeAt k ≠ some Node.dir) (q : Key) :
    fs.nodeAt q = some Node.dir ↔ (fs.set k (Node.file t)).nodeAt q = some Node.dir := by
  rw [nodeAt_set fs k _ q (ne_nil_of_not_dir fs k h)]
  by_cases hq : q = k
  · rw [if_pos hq, hq]
    constructor
    · intro e; exact absurd e h
    · intro e; cases e
  · rw [if_neg hq]

theorem resolve_set_file (fs : FS) (k : Key) (t : Str) (h : fs.nodeAt k ≠ some Node.dir)
    (p : Str) : resolve (fs.set k (Node.file t)) p = resolve fs p :=
  (resolve_congr fs _ (set_file_dirs fs k t h) p).symm

theorem openW_eq_some (w : World) (p : Str) (k : Key) :
    openW w p = some k ↔
      (w.refused Op.openWrite w.fs (c_str p) = false ∧ resolve w.fs (c_str p) = some k ∧
        w.fs.nodeAt k ≠ some Node.dir) := by
  unfold openW
  cases hr : w.refused Op.openWrite w.fs (c_str p) with
  | true => simp
  | false =>
    cases hres : resolve w.fs (c_str p) with
    | none => simp
    | some k' =>
      simp only [Bool.false_eq_true, if_false, Option.some.injEq, true_and]
      cases hn : w.fs.nodeAt k' with
      | none =>
        constructor
        · intro e
          have e' : k' = k := Option.some.inj e
          rw [← e', hn]
          exact ⟨rfl, fun e => by cases e⟩
        · intro e; rw [e.1]
      | some n =>
        cases n with
        | dir =>
          constructor
          · intro e; cases e
          · intro e; exact absurd (e.1 ▸ hn) e.2
        | file c =>
          constructor
          · intro e
            have e' : k' = k := Option.some.inj e
            rw [← e', hn]
            exact ⟨rfl, fun e => by cases e⟩
          · intro e; rw [e.1]

theorem set_set_same (fs : FS) (k : Key) (n m : Node) : (fs.set k n).set k m = fs.set k m := by
  funext q
  unfold FS.set
  by_cases hq : q = k
  · simp only [if_pos hq]
  · simp only [if_neg hq]

theorem nodeAt_set_same (fs : FS) (k : Key) (n : Node) (hk : k ≠ []) :
    (fs.set k n).nodeAt k = some n := by
  rw [nodeAt_set fs k n k hk, if_pos rfl]

/-- The stream on `p` opens again, on the same file, after a write through it. -/
theorem openW_after_set (w : World) (p : Str) (k : Key) (t : Str) (h : openW w p = some k)
    (hr : w.refused Op.openWrite (w.fs.set k (Node.file t)) (c_str p) = false) :
    openW { w with fs := w.fs.set k (Node.file t) } p = some k := by
  rw [openW_eq_some] at h ⊢
  refine ⟨hr, ?_, ?_⟩
  · show resolve (w.fs.set k (Node.file t)) (c_str p) = some k
    rw [resolve_set_file w.fs k t h.2.2]
    exact h.2.1
  · show (w.fs.set k (Node.file t)).nodeAt k ≠ some Node.dir
    rw [nodeAt_set_same _ _ _ (ne_nil_of_not_dir _ _ h.2.2)]
    exact fun e => by cases e

theorem contentAt_set_same (fs : FS) (k : Key) (t : Str) (hk : k ≠ []) :
    contentAt (fs.set k (Node.file t)) k = t := by
  unfold contentAt
  rw [nodeAt_set_same fs k _ hk]

theorem lookup_of_resolve (fs : FS) (p : Str) (k : Key) (h : resolve fs (c_str p) = some k) :
    lookup fs p = fs.nodeAt k := by
  unfold lookup
  rw [h]

/-- After a write through the stream on `p`, the path `p` names the file written. -/
theorem lookup_after_set (w : World) (p : Str) (k : Key) (t : Str) (h : openW w p = some k) :
    lookup (w.fs.set k (Node.file t)) p = some (Node.file t) := by
  rw [openW_eq_some] at h
  rw [lookup_of_resolve _ p k (by rw [resolve_set_file w.fs k t h.2.2]; exact h.2.1)]
  exact nodeAt_set_same _ _ _ (ne_nil_of_not_dir _ _ h.2.2)

theorem set_other (fs : FS) (k : Key) (n : Node) (q : Key) (hq : q ≠ k) : (fs.set k n) q = fs q := by
  unfold FS.set
  rw [if_neg hq]

theorem writeFile_of_open (w : World) (p text : Str) (k : Key) (h : openW w p = some k) :
    writeFile w p text = { w with fs := w.fs.set k (Node.file text) } := by
  unfold writeFile
  rw [h]

theorem writeFile_of_closed (w : World) (p text : Str) (h : openW w p = none) :
    writeFile w p text = w := by
  unfold writeFile
  rw [h]

theorem appendFile_of_open (w : World) (p text : Str) (k : Key) (h : openW w p = some k) :
    appendFile w p text = { w with fs := w.fs.set k (Node.file (contentAt w.fs k ++ text)) } := by
  unfold appendFile
  rw [h]

theorem appendFile_of_closed (w : World) (p text : Str) (h : openW w p = none) :
    appendFile w p text = w := by
  unfold appendFile
  rw [h]

/-! ## Lines of a text -/

theorem getlines_append_nl (l rest : Str) (h : nl ∉ l) :
    getlines (l ++ nl :: rest) = l :: getlines rest := by
  induction l with
  | nil =>
    show getlines (nl :: rest) = _
    rw [getlines, if_pos rfl]
  | cons c t ih =>
    simp only [List.mem_cons, not_or] at h
    have hc : c ≠ nl := fun e => h.1 e.symm
    show getlines (c :: (t ++ nl :: rest)) = _
    rw [getlines, if_neg hc, ih h.2]

theorem unlines_append (L M : List Str) : unlines (L ++ M) = unlines L ++ unlines M := by
  unfold unlines
  rw [List.flatMap_append]

theorem unlines_singleton (c : Str) : unlines [c] = c ++ [nl] := by
  unfold unlines
  rw [List.flatMap_cons, List.flatMap_nil, List.append_nil]

theorem unlines_cons (l : Str) (L : List Str) : unlines (l :: L) = l ++ nl :: unlines L := by
  unfold unlines
  rw [List.flatMap_cons, List.append_assoc]
  rfl

theorem getlines_unlines (L : List Str) (h : ∀ l ∈ L, nl ∉ l) : getlines (unlines L) = L := by
  induction L with
  | nil => rfl
  | cons l t ih =>
    rw [unlines_cons, getlines_append_nl l _ (h l (List.mem_cons_self _ _)),
      ih (fun x hx => h x (List.mem_cons_of_mem _ hx))]

theorem unlines_eq_nil (L : List Str) (h : unlines L = []) : L = [] := by
  cases L with
  | nil => rfl
  | cons l t =>
    rw [unlines_cons] at h
    exact absurd h (by simp)
/-! ## What Linux refuses -/

theorem reachesLongName_short (fs : FS) (cs : List Str) (h : ∀ c ∈ cs, c.length ≤ NAME_MAX)
    (cur : Key) : reachesLongName fs cur cs = false := by
  induction cs generalizing cur with
  | nil => rfl
  | cons c t ih =>
    have hc : ¬ NAME_MAX < c.length := Nat.not_lt.2 (h c (List.mem_cons_self _ _))
    have ht : ∀ x ∈ t, x.length ≤ NAME_MAX := fun x hx => h x (List.mem_cons_of_mem _ hx)
    unfold reachesLongName
    cases fs.nodeAt cur with
    | none => rfl
    | some n =>
      cases n with
      | file _ => rfl
      | dir =>
        show (if c = [] ∨ c = dot then reachesLongName fs cur t
          else if c = dotdot then reachesLongName fs cur.dropLast t
          else if NAME_MAX < c.length then true
          else reachesLongName fs (cur ++ [c]) t) = false
        rw [ih ht, ih ht, ih ht, if_neg hc]
        simp

/-- Linux refuses no call on a short path of short names, whatever the disk. -/
theorem linuxRefused_short (p : Str) (hp : p.length < PATH_MAX)
    (hc : ∀ c ∈ components p, c.length ≤ NAME_MAX) (hd : (prefixes p).length ≤ 1000)
    (op : Op) (fs : FS) : linuxRefused op fs p = false := by
  have hgen : (decide (PATH_MAX ≤ p.length) || reachesLongName fs [] (components p)) = false := by
    rw [reachesLongName_short fs _ hc, Bool.or_false]
    exact decide_eq_false (Nat.not_le.2 hp)
  cases op with
  | mkdirs =>
    show tooDeep fs p = false
    unfold tooDeep
    refine decide_eq_false (Nat.not_lt.2 (le_trans (List.length_filter_le _ _) hd))
  | stat => exact hgen
  | openRead => exact hgen
  | openWrite => exact hgen
  | mkdir => exact hgen

/-! ## The registry: loading and saving -/

theorem fsExists_of_accepted (w : World) (p : Str)
    (h : w.refused Op.stat w.fs (c_str p) = false) :
    fsExists w p = .ok (lookup w.fs p).isSome := by
  unfold fsExists
  rw [h]
  rfl

theorem foldlM_loadLine (w : World) (ls : List Str) (acc : List Session)
    (hst : ∀ l ∈ ls, l ≠ [] → w.refused Op.stat w.fs (c_str (pathJoin sessions_base l)) = false) :
    ls.foldlM (loadLine w) acc = .ok (acc ++
      (ls.filter (fun l => decide (l ≠ []) && (lookup w.fs (pathJoin sessions_base l)).isSome)).map
        Session.mk) := by
  induction ls generalizing acc with
  | nil => simp; rfl
  | cons l t ih =>
    have ht := fun acc' => ih acc' (fun x hx => hst x (List.mem_cons_of_mem _ hx))
    rw [List.foldlM_cons]
    by_cases he : l = []
    · have e1 : loadLine w acc l = .ok acc := by
        unfold loadLine
        rw [if_pos he]
      rw [e1]
      show t.foldlM (loadLine w) acc = _
      rw [ht acc, List.filter_cons]
      simp only [he, ne_eq, not_true_eq_false, decide_False, Bool.false_and, Bool.false_eq_true,
        if_false]
    · have hacc := hst l (List.mem_cons_self _ _) he
      cases hx : (lookup w.fs (pathJoin sessions_base l)).isSome with
      | true =>
        have e1 : loadLine w acc l = .ok (acc ++ [⟨l⟩]) := by
          unfold loadLine
          rw [if_neg he, fsExists_of_accepted w _ hacc, hx]
          rfl
        rw [e1]
        show t.foldlM (loadLine w) (acc ++ [Session.mk l]) = _
        rw [ht (acc ++ [Session.mk l]), List.filter_cons]
        simp only [he, ne_eq, not_false_eq_true, decide_True, hx, Bool.and_self, if_true,
          List.map_cons, List.append_assoc, List.singleton_append]
      | false =>
        have e1 : loadLine w acc l = .ok acc := by
          unfold loadLine
          rw [if_neg he, fsExists_of_accepted w _ hacc, hx]
          rfl
        rw [e1]
        show t.foldlM (loadLine w) acc = _
        rw [ht acc, List.filter_cons]
        simp only [hx, Bool.and_false, Bool.false_eq_true, if_false]

theorem map_getName_map_mk (ls : List Str) : (ls.map Session.mk).map Session.getName = ls := by
  induction ls with
  | nil => rfl
  | cons l t ih => rw [List.map_cons, List.map_cons, ih]; rfl

theorem readLines_of_missing (w : World) (p : Str) (h : (lookup w.fs p).isSome = false) :
    readLines w p = [] := by
  unfold readLines
  cases hl : lookup w.fs p with
  | none => simp
  | some n => rw [hl] at h; cases h

set_option maxRecDepth 1000000 in
/-- An index line longer than `NAME_MAX` is not dropped: `fs::exists` raises
on it and the constructor does not return. -/
theorem index_line_beyond_name_limit_raises :
    (loadSessions ⟨[], [], worldOn (freshFS.set indexKey
        (Node.file (List.replicate 256 'a' ++ [nl])))⟩).map AIHelper.names
      = .error .filesystem_error := by
  decide

theorem writeFile_writeFile (w : World) (p text : Str)
    (hst : ∀ fs, w.refused Op.openWrite fs (c_str p) = w.refused Op.openWrite w.fs (c_str p)) :
    writeFile (writeFile w p text) p text = writeFile w p text := by
  cases ho : openW w p with
  | none =>
    rw [writeFile_of_closed w p text ho, writeFile_of_closed w p text ho]
  | some k =>
    have hr : w.refused Op.openWrite (w.fs.set k (Node.file text)) (c_str p) = false := by
      rw [hst]
      exact ((openW_eq_some w p k).1 ho).1
    rw [writeFile_of_open w p text k ho,
      writeFile_of_open _ p text k (openW_after_set w p k text ho hr)]
    show World.mk ((w.fs.set k (Node.file text)).set k (Node.file text)) _ _ _ _ = _
    rw [set_set_same]

theorem readLines_of_file (w : World) (p c : Str)
    (hr : w.refused Op.openRead w.fs (c_str p) = false)
    (hl : lookup w.fs p = some (Node.file c)) : readLines w p = getlines c := by
  unfold readLines
  rw [hr, hl]
  rfl

/-- In the world of the examples no call is refused on a short path of short
names. -/
theorem worldOn_accepts (fs0 : FS) (p : Str) (hp : (c_str p).length < PATH_MAX)
    (hc : ∀ c ∈ components (c_str p), c.length ≤ NAME_MAX)
    (hd : (prefixes (c_str p)).length ≤ 1000) : Accepts (worldOn fs0) p :=
  fun op fs => linuxRefused_short (c_str p) hp hc hd op fs

set_option maxRecDepth 100000 in
/-- On an empty disk the constructor returns the helper `fresh`: no todo, no
session, and the sessions root with its parents as the only folders. -/
theorem init_on_empty_disk (k : Key) :
    (AIHelper.init (worldOn (fun _ => none))).map
        (fun h => (h.todo_list, h.sessions, h.world.cout, h.world.shell))
      = .ok (fresh.todo_list, fresh.sessions, fresh.world.cout, fresh.world.shell) ∧
    (AIHelper.init (worldOn (fun _ => none))).map (fun h => h.world.fs k)
      = .ok (fresh.world.fs k) := by
  refine ⟨by decide, ?_⟩
  have e : AIHelper.init (worldOn (fun _ => none))
      = .ok ⟨[], [], ⟨((FS.set (fun _ => none) ["root".toList] Node.dir).set
          ["root".toList, "craifter".toList] Node.dir).set
          ["root".toList, "craifter".toList, "sessions".toList] Node.dir, [], [],
          fun _ d => d, linuxRefused⟩⟩ := by
    rfl
  rw [e]
  show Except.ok ((((FS.set (fun _ => none) ["root".toList] Node.dir).set
    ["root".toList, "craifter".toList] Node.dir).set
    ["root".toList, "craifter".toList, "sessions".toList] Node.dir) k) = Except.ok (freshFS k)
  unfold freshFS FS.set
  by_cases h1 : k = ["root".toList, "craifter".toList, "sessions".toList]
  · rw [if_pos h1, if_pos (Or.inr (Or.inr h1))]
  · by_cases h2 : k = ["root".toList, "craifter".toList]
    · rw [if_neg h1, if_pos h2, if_pos (Or.inr (Or.inl h2))]
    · by_cases h3 : k = ["root".toList]
      · rw [if_neg h1, if_neg h2, if_pos h3, if_pos (Or.inl h3)]
      · rw [if_neg h1, if_neg h2, if_neg h3, if_neg (by
          rintro (h | h | h)
          · exact h3 h
          · exact h2 h
          · exact h1 h)]

/-! ## Dispatch on the keyword -/

theorem processCommand_newsession (h : AIHelper) (rest : Str) :
    processCommand h ("newsession ".toList ++ rest) = doNewsession h ("newsession ".toList ++ rest) := by
  unfold processCommand
  rw [if_neg (by simp), if_neg (by simp [findStr_eq_zero_iff]),
    if_neg (by simp [findStr_eq_zero_iff]), if_neg (by simp), if_neg (by simp),
    if_pos (by simp [findStr_eq_zero_iff])]

theorem processCommand_savecommand (h : AIHelper) (rest : Str) :
    processCommand h ("savecommand ".toList ++ rest)
      = doSavecommand h ("savecommand ".toList ++ rest) := by
  unfold processCommand
  rw [if_neg (by simp), if_neg (by simp [findStr_eq_zero_iff]),
    if_neg (by simp [findStr_eq_zero_iff]), if_neg (by simp), if_neg (by simp),
    if_neg (by simp [findStr_eq_zero_iff]), if_pos (by simp [findStr_eq_zero_iff])]

theorem processCommand_savenote (h : AIHelper) (rest : Str) :
    processCommand h ("savenote ".toList ++ rest) = doSavenote h ("savenote ".toList ++ rest) := by
  unfold processCommand
  rw [if_neg (by simp), if_neg (by simp [findStr_eq_zero_iff]),
    if_neg (by simp [findStr_eq_zero_iff]), if_neg (by simp), if_neg (by simp),
    if_neg (by simp [findStr_eq_zero_iff]), if_neg (by simp [findStr_eq_zero_iff]),
    if_pos (by simp [findStr_eq_zero_iff])]

theorem processCommand_playback (h : AIHelper) (rest : Str) :
    processCommand h ("playback ".toList ++ rest) = doPlayback h ("playback ".toList ++ rest) := by
  unfold processCommand
  rw [if_neg (by simp), if_neg (by simp [findStr_eq_zero_iff]),
    if_neg (by simp [findStr_eq_zero_iff]), if_neg (by simp), if_neg (by simp),
    if_neg (by simp [findStr_eq_zero_iff]), if_neg (by simp [findStr_eq_zero_iff]),
    if_neg (by simp [findStr_eq_zero_iff]), if_pos (by simp [findStr_eq_zero_iff])]

theorem processCommand_runproject (h : AIHelper) (rest : Str) :
    processCommand h ("runproject ".toList ++ rest)
      = doRunproject h ("runproject ".toList ++ rest) := by
  unfold processCommand
  rw [if_neg (by simp), if_neg (by simp [findStr_eq_zero_iff]),
    if_neg (by simp [findStr_eq_zero_iff]), if_neg (by simp), if_neg (by simp),
    if_neg (by simp [findStr_eq_zero_iff]), if_neg (by simp [findStr_eq_zero_iff]),
    if_neg (by simp [findStr_eq_zero_iff]), if_neg (by simp [findStr_eq_zero_iff]),
    if_pos (by simp [findStr_eq_zero_iff])]

/-! ## Reading the arguments of a line -/

/-- The remainder of a line after a keyword of length `n`. -/
theorem substr_after_keyword (kw rest : Str) (n : Nat) (hn : kw.length = n)
    (hl : rest.length ≤ npos) : substr (kw ++ rest) n npos = .ok rest := by
  rw [substr_ok _ _ _ (by rw [List.length_append]; omega), List.drop_left' hn,
    List.take_of_length_le hl]

/-- The blank that ends a token without blanks is found right after it. -/
theorem find_after_keyword (kw S rest : Str) (n : Nat) (hn : kw.length = n) (hS : sp ∉ S) :
    find (kw ++ (S ++ sp :: rest)) sp n = n + S.length := by
  unfold find
  rw [List.drop_left' hn]
  exact findAux_append sp S rest n hS

/-- The token between a keyword of length `n` and the next blank. -/
theorem substr_token (kw S rest : Str) (n : Nat) (hn : kw.length = n) :
    substr (kw ++ (S ++ sp :: rest)) n (n + S.length - n) = .ok S := by
  rw [substr_ok _ _ _ (by rw [List.length_append]; omega), List.drop_left' hn,
    Nat.add_sub_cancel_left, List.take_left]

/-- The remainder of a line after the blank that ends its first token. -/
theorem substr_text (kw S rest : Str) (n : Nat) (hn : kw.length = n) :
    substr (kw ++ (S ++ sp :: rest)) (n + S.length + 1) npos = .ok (rest.take npos) := by
  have hd : (kw ++ (S ++ sp :: rest)).drop (n + S.length + 1) = rest := by
    have e : kw ++ (S ++ sp :: rest) = (kw ++ S ++ [sp]) ++ rest := by simp
    rw [e]
    exact List.drop_left' (by simp only [List.length_append, List.length_cons, List.length_nil, hn])
  rw [substr_ok _ _ _ (by simp only [List.length_append, List.length_cons]; omega), hd]

theorem findSession_none (h : AIHelper) (G : Str) (hG : ∀ s ∈ h.sessions, s.getName ≠ G) :
    findSession h G = none := by
  unfold findSession
  rw [List.find?_eq_none]
  intro s hs
  simpa using hG s hs

theorem find?_name_of_mem (l : List Session) (S : Str) (hS : (⟨S⟩ : Session) ∈ l) :
    l.find? (fun s => decide (s.getName = S)) = some ⟨S⟩ := by
  induction l with
  | nil => cases hS
  | cons a t ih =>
    by_cases ha : a.getName = S
    · rw [List.find?_cons_of_pos _ (by simpa using ha)]
      cases a
      unfold Session.getName at ha
      subst ha
      rfl
    · rw [List.find?_cons_of_neg _ (by simpa using ha)]
      rcases List.mem_cons.1 hS with e | hm
      · exact absurd (by rw [← e]; rfl) ha
      · exact ih hm

/-- The lookup of a registered name finds the session of that name. -/
theorem findSession_of_mem (h : AIHelper) (S : Str) (hS : (⟨S⟩ : Session) ∈ h.sessions) :
    findSession h S = some ⟨S⟩ :=
  find?_name_of_mem h.sessions S hS

/-! ## Creating a session -/

theorem names_append (h : AIHelper) (s : Session) :
    (h.sessions ++ [s]).map Session.getName = h.names ++ [s.getName] := by
  unfold AIHelper.names
  rw [List.map_append]
  rfl

/-- The effect of `newsession` once its name is read and its folders exist. -/
theorem doNewsession_ok (h : AIHelper) (cmd name : Str) (w1 : World)
    (hn : substr cmd 11 npos = .ok name)
    (hc : Session.createFolders ⟨name⟩ h.world = .ok w1) :
    ∃ h', doNewsession h cmd = .ok h' ∧
      h'.sessions = h.sessions ++ [⟨name⟩] ∧
      h'.world = (writeFile w1 sessions_file (unlines (h.names ++ [name]))).print
        ("Created session: ".toList ++ name) ∧
      h'.todo_list = h.todo_list := by
  unfold doNewsession
  rw [hn]
  show ∃ h', (Session.createFolders ⟨name⟩ h.world >>= _) = Except.ok h' ∧ _
  rw [hc]
  refine ⟨_, rfl, rfl, ?_, rfl⟩
  show (writeFile w1 sessions_file
    (unlines ((h.sessions ++ [Session.mk name]).map Session.getName))).print _ = _
  rw [names_append]
  rfl

theorem mkdirStep_frame (w w' : World) (q : Str) (h : mkdirStep w q = .ok w') :
    w'.cout = w.cout ∧ w'.shell = w.shell ∧ w'.run = w.run ∧ w'.refused = w.refused := by
  unfold mkdirStep at h
  split_ifs at h
  split at h
  · split at h
    · cases h; exact ⟨rfl, rfl, rfl, rfl⟩
    · cases h
    · cases h; exact ⟨rfl, rfl, rfl, rfl⟩
  · cases h

theorem foldlM_mkdirStep_frame (l : List Str) (w w' : World)
    (h : l.foldlM mkdirStep w = .ok w') :
    w'.cout = w.cout ∧ w'.shell = w.shell ∧ w'.run = w.run ∧ w'.refused = w.refused := by
  induction l generalizing w with
  | nil => cases h; exact ⟨rfl, rfl, rfl, rfl⟩
  | cons a t ih =>
    rw [List.foldlM_cons] at h
    cases h1 : mkdirStep w a with
    | error e => rw [h1] at h; cases h
    | ok w1 =>
      rw [h1] at h
      obtain ⟨a1, a2, a3, a4⟩ := mkdirStep_frame w w1 a h1
      obtain ⟨b1, b2, b3, b4⟩ := ih w1 h
      exact ⟨b1.trans a1, b2.trans a2, b3.trans a3, b4.trans a4⟩

theorem create_directories_frame (w w' : World) (p : Str)
    (h : create_directories w p = .ok w') :
    w'.cout = w.cout ∧ w'.shell = w.shell ∧ w'.run = w.run ∧ w'.refused = w.refused := by
  unfold create_directories at h
  split_ifs at h
  exact foldlM_mkdirStep_frame _ w w' h

/-- Creating the folders of a session changes the disk only. -/
theorem createFolders_frame (s : Session) (w w' : World) (h : s.createFolders w = .ok w') :
    w'.cout = w.cout ∧ w'.shell = w.shell ∧ w'.run = w.run ∧ w'.refused = w.refused := by
  unfold Session.createFolders at h
  cases h1 : create_directories w s.commands_path with
  | error e => rw [h1] at h; cases h
  | ok w1 =>
    rw [h1] at h
    cases h2 : create_directories w1 s.data_path with
    | error e =>
      have h' : (create_directories w1 s.data_path >>= fun w2 =>
        create_directories w2 s.results_path >>= fun w3 =>
          create_directories w3 s.notes_path) = Except.ok w' := h
      rw [h2] at h'; cases h'
    | ok w2 =>
      have h' : (create_directories w1 s.data_path >>= fun w2 =>
        create_directories w2 s.results_path >>= fun w3 =>
          create_directories w3 s.notes_path) = Except.ok w' := h
      rw [h2] at h'
      cases h3 : create_directories w2 s.results_path with
      | error e =>
        have h'' : (create_directories w2 s.results_path >>= fun w3 =>
            create_directories w3 s.notes_path) = Except.ok w' := h'
        rw [h3] at h''; cases h''
      | ok w3 =>
        have h'' : (create_directories w2 s.results_path >>= fun w3 =>
            create_directories w3 s.notes_path) = Except.ok w' := h'
        rw [h3] at h''
        have h4 : create_directories w3 s.notes_path = Except.ok w' := h''
        obtain ⟨a1, a2, a3, a4⟩ := create_directories_frame _ _ _ h1
        obtain ⟨b1, b2, b3, b4⟩ := create_directories_frame _ _ _ h2
        obtain ⟨c1, c2, c3, c4⟩ := create_directories_frame _ _ _ h3
        obtain ⟨d1, d2, d3, d4⟩ := create_directories_frame _ _ _ h4
        exact ⟨d1.trans (c1.trans (b1.trans a1)), d2.trans (c2.trans (b2.trans a2)),
          d3.trans (c3.trans (b3.trans a3)), d4.trans (c4.trans (b4.trans a4))⟩

/-- C5 (amended).  For every state and every name `N` (shorter than `2^64`),
provided the four folders of `N` can be created and the index path can then
be opened for writing, routing `newsession N` returns, appends exactly one
session named `N` at the end of the in-memory list, also when the name is
already present, keeps the earlier entries in their order, and leaves the
index file holding each name of the resulting list followed by a newline, in
list order; and, provided no name of the resulting list holds a newline and
the index can be read, reading the index back line by line yields exactly the
names of the resulting list. -/
theorem newsession_spec (h : AIHelper) (N : Str) (hlen : N.length ≤ npos)
    (hfs : (Session.createFolders ⟨N⟩ h.world).map (fun w => (openW w sessions_file).isSome)
      = .ok true) :
    ∃ h', processCommand h ("newsession ".toList ++ N) = .ok h' ∧
      h'.sessions = h.sessions ++ [⟨N⟩] ∧
      h'.names = h.names ++ [N] ∧
      lookup h'.world.fs sessions_file = some (Node.file (unlines (h.names ++ [N]))) ∧
      (h.world.refused Op.openRead h'.world.fs (c_str sessions_file) = false →
        (∀ n ∈ h.names ++ [N], nl ∉ n) →
        readLines h'.world sessions_file = h.names ++ [N]) ∧
      h'.todo_list = h.todo_list ∧
      h'.world.shell = h.world.shell ∧
      h'.world.cout = h.world.cout ++ ("Created session: ".toList ++ N) ++ [nl] := by
  rw [processCommand_newsession]
  cases hc : Session.createFolders ⟨N⟩ h.world with
  | error e => rw [hc] at hfs; cases hfs
  | ok w1 =>
    rw [hc] at hfs
    have hopen : (openW w1 sessions_file).isSome = true := by
      injection hfs
    obtain ⟨k, hk⟩ := Option.isSome_iff_exists.1 hopen
    obtain ⟨f1, f2, f3, f4⟩ := createFolders_frame _ _ _ hc
    obtain ⟨h', hr, h1, h2, h3⟩ := doNewsession_ok h ("newsession ".toList ++ N) N w1
      (substr_after_keyword "newsession ".toList N 11 rfl hlen) hc
    rw [writeFile_of_open _ _ _ k hk] at h2
    have hlook : lookup h'.world.fs sessions_file
        = some (Node.file (unlines (h.names ++ [N]))) := by
      rw [h2]
      exact lookup_after_set _ _ _ _ hk
    refine ⟨h', hr, h1, ?_, hlook, ?_, h3, ?_, ?_⟩
    · unfold AIHelper.names
      rw [h1]
      exact names_append h ⟨N⟩
    · intro hread hnl
      have hr' : h'.world.refused Op.openRead h'.world.fs (c_str sessions_file) = false := by
        have e : h'.world.refused = h.world.refused := by
          rw [h2]
          exact f4
        rw [e]
        exact hread
      rw [readLines_of_file _ _ _ hr' hlook, getlines_unlines _ hnl]
    · rw [h2]
      exact f2
    · rw [h2]
      show w1.cout ++ _ ++ [nl] = _
      rw [f1]

set_option maxRecDepth 100000 in
/-- C5, witness: a second `newsession web` on a disk that has the index. -/
theorem newsession_spec_witness :
    ∃ h', processCommand ⟨[], [⟨"web".toList⟩],
        worldOn (freshFS.set indexKey (Node.file "web\n".toList))⟩
        ("newsession ".toList ++ "web".toList) = .ok h' ∧
      h'.sessions = [⟨"web".toList⟩, ⟨"web".toList⟩] ∧
      h'.names = ["web".toList, "web".toList] ∧
      lookup h'.world.fs sessions_file = some (Node.file "web\nweb\n".toList) ∧
      readLines h'.world sessions_file = ["web".toList, "web".toList] := by
  obtain ⟨h', hr, h1, h2, h3, h4, _, _, _⟩ := newsession_spec ⟨[], [⟨"web".toList⟩],
    worldOn (freshFS.set indexKey (Node.file "web\n".toList))⟩ "web".toList
    (by decide) (by decide)
  exact ⟨h', hr, h1, h2, h3,
    h4 (worldOn_accepts _ sessions_file (by decide) (by decide) (by decide) Op.openRead _)
      (by decide)⟩

set_option maxRecDepth 100000 in
/-- C5 as stated fails for the name `sessions.txt` on a disk without index:
the session's folder takes the place of the index file, which then cannot be
written, so no index file lists the one session of the resulting list. -/
theorem newsession_named_like_the_index :
    (processCommand fresh "newsession sessions.txt".toList).map
        (fun h => (h.names, lookup h.world.fs sessions_file, readLines h.world sessions_file))
      = .ok (["sessions.txt".toList], some Node.dir, []) ∧
    some Node.dir ≠ some (Node.file (unlines ["sessions.txt".toList])) := by
  decide

set_option maxRecDepth 100000 in
/-- A name with a newline: the list holds the one name, the index holds it
followed by a newline, and reads back as the two lines `a` and `b`. -/
theorem newsession_name_with_newline :
    (processCommand fresh "newsession a\nb".toList).map
        (fun h => (h.names, lookup h.world.fs sessions_file, readLines h.world sessions_file))
      = .ok (["a\nb".toList], some (Node.file "a\nb\n".toList), ["a".toList, "b".toList]) := by
  decide

set_option maxRecDepth 100000 in
/-- A name with a NUL byte: the folders are made for the bytes before it, and
the list and the index hold the whole name. -/
theorem newsession_name_with_nul :
    (processCommand fresh ("newsession a".toList ++ nul :: "b".toList)).map
        (fun h => (h.names, isFolder h.world.fs (pathJoin sessions_base "a".toList),
          h.world.fs ["root".toList, "craifter".toList, "sessions".toList,
            "a".toList ++ nul :: "b".toList],
          lookup h.world.fs sessions_file))
      = .ok (["a".toList ++ nul :: "b".toList], true, none,
          some (Node.file ("a".toList ++ nul :: "b".toList ++ [nl]))) := by
  decide

/-! ## Lines that name no session -/

/-- C4 (amended).  For every state and every name `G` of no session in the
registry: `playback G` is a no-op (nothing changes, nothing is printed or
executed); `runproject G` changes nothing and prints exactly
`Project not found.`; and when `G` contains no blank, `savecommand G text`
is a no-op as well.  (`G` is shorter than `2^64`.) -/
theorem unknown_session_noop (h : AIHelper) (G text : Str)
    (hG : ∀ s ∈ h.sessions, s.getName ≠ G) (hlen : G.length ≤ npos) :
    processCommand h ("playback ".toList ++ G) = .ok h ∧
    processCommand h ("runproject ".toList ++ G)
      = .ok { h with world := { h.world with
          cout := h.world.cout ++ "Project not found.".toList ++ [nl] } } ∧
    (sp ∉ G → processCommand h ("savecommand ".toList ++ (G ++ sp :: text)) = .ok h) := by
  refine ⟨?_, ?_, ?_⟩
  · rw [processCommand_playback]
    unfold doPlayback
    rw [substr_after_keyword "playback ".toList G 9 rfl hlen]
    show (match findSession h G with | some s => _ | none => _) = _
    rw [findSession_none h G hG]
  · rw [processCommand_runproject]
    unfold doRunproject
    rw [substr_after_keyword "runproject ".toList G 11 rfl hlen]
    show (match findSession h G with | some s => _ | none => _) = _
    rw [findSession_none h G hG]
    rfl
  · intro hsp
    rw [processCommand_savecommand]
    unfold doSavecommand
    dsimp only
    rw [find_after_keyword "savecommand ".toList G text 12 rfl hsp]
    by_cases hn : 12 + G.length ≠ npos
    · rw [if_pos hn, substr_token "savecommand ".toList G text 12 rfl,
        substr_text "savecommand ".toList G text 12 rfl]
      show (match findSession h G with | some s => _ | none => _) = _
      rw [findSession_none h G hG]
    · rw [if_neg hn]

set_option maxRecDepth 100000 in
/-- C4, witness: the name `ghost` in a registry that holds `web`. -/
theorem unknown_session_noop_witness :
    processCommand ⟨[], [⟨"web".toList⟩], worldOn freshFS⟩ ("playback ".toList ++ "ghost".toList)
      = .ok ⟨[], [⟨"web".toList⟩], worldOn freshFS⟩ :=
  (unknown_session_noop ⟨[], [⟨"web".toList⟩], worldOn freshFS⟩ "ghost".toList "x".toList
    (by decide) (by decide)).1

set_option maxRecDepth 100000 in
/-- C4 as stated fails for a name with a blank: `a b` names no session, yet
routing `savecommand a b x` appends the line `b x` to the commands log of the
session `a`. -/
theorem savecommand_name_with_blank_writes :
    "a b".toList ∉ ["a".toList] ∧
    (route fresh ["newsession a".toList]).map
        (fun h => (h.names, lookup h.world.fs (Session.commands_file ⟨"a".toList⟩)))
      = .ok (["a".toList], none) ∧
    (route fresh ["newsession a".toList, "savecommand a b x".toList]).map
        (fun h => (h.names, lookup h.world.fs (Session.commands_file ⟨"a".toList⟩)))
      = .ok (["a".toList], some (Node.file "b x\n".toList)) := by
  decide

/-! ## Saving commands and playing them back -/

theorem logHasLines_iff (w : World) (p : Str) (L : List Str) :
    LogHasLines w p L ↔ ∃ k, openW w p = some k ∧ contentAt w.fs k = unlines L := by
  unfold LogHasLines
  cases openW w p with
  | none => simp
  | some k => simp

/-- Appending a line to a log of lines `L` gives the log of lines `L ++ [c]`
and touches no other location. -/
theorem appendFile_log (w : World) (p c : Str) (L : List Str) (h : LogHasLines w p L)
    (hacc : Accepts w p) :
    ∃ k, openW w p = some k ∧
      LogHasLines (appendFile w p (c ++ [nl])) p (L ++ [c]) ∧
      openW (appendFile w p (c ++ [nl])) p = some k ∧
      (∀ q, q ≠ k → (appendFile w p (c ++ [nl])).fs q = w.fs q) ∧
      (appendFile w p (c ++ [nl])).cout = w.cout ∧
      (appendFile w p (c ++ [nl])).shell = w.shell ∧
      (appendFile w p (c ++ [nl])).run = w.run ∧
      (appendFile w p (c ++ [nl])).refused = w.refused := by
  obtain ⟨k, hk, hcont⟩ := (logHasLines_iff w p L).1 h
  have hk2 := openW_after_set w p k (contentAt w.fs k ++ (c ++ [nl])) hk (hacc _ _)
  have hne : k ≠ [] := ne_nil_of_not_dir _ _ ((openW_eq_some w p k).1 hk).2.2
  rw [appendFile_of_open w p _ k hk]
  refine ⟨k, hk, ?_, hk2, fun q hq => set_other _ _ _ _ hq, rfl, rfl, rfl, rfl⟩
  rw [logHasLines_iff]
  refine ⟨k, hk2, ?_⟩
  show contentAt (w.fs.set k _) k = _
  rw [contentAt_set_same _ _ _ hne, hcont, unlines_append, unlines_singleton]

theorem mem_sessions_of_mem_names (h : AIHelper) (S : Str) (hS : S ∈ h.names) :
    (⟨S⟩ : Session) ∈ h.sessions := by
  unfold AIHelper.names at hS
  obtain ⟨s, hs, hn⟩ := List.mem_map.1 hS
  cases s
  unfold Session.getName at hn
  subst hn
  exact hs

/-- One `savecommand` for a registered session whose log has the lines `L`. -/
theorem savecommand_step (h : AIHelper) (S c : Str) (L : List Str) (hS : sp ∉ S)
    (hreg : S ∈ h.names)
    (hlen : ("savecommand ".toList ++ (S ++ sp :: c)).length < npos)
    (hlog : LogHasLines h.world (Session.commands_file ⟨S⟩) L)
    (hacc : Accepts h.world (Session.commands_file ⟨S⟩)) :
    ∃ h' k, processCommand h ("savecommand ".toList ++ (S ++ sp :: c)) = .ok h' ∧
      h'.sessions = h.sessions ∧ h'.todo_list = h.todo_list ∧
      h'.world.shell = h.world.shell ∧ h'.world.cout = h.world.cout ∧
      h'.world.run = h.world.run ∧ h'.world.refused = h.world.refused ∧
      LogHasLines h'.world (Session.commands_file ⟨S⟩) (L ++ [c]) ∧
      openW h.world (Session.commands_file ⟨S⟩) = some k ∧
      openW h'.world (Session.commands_file ⟨S⟩) = some k ∧
      ∀ q, q ≠ k → h'.world.fs q = h.world.fs q := by
  have hl : 12 + S.length + 1 + c.length < npos := by
    have e : ("savecommand ".toList ++ (S ++ sp :: c)).length = 12 + S.length + 1 + c.length := by
      simp only [List.length_append, List.length_cons]
      have : "savecommand ".toList.length = 12 := rfl
      omega
    omega
  rw [processCommand_savecommand]
  unfold doSavecommand
  dsimp only
  rw [find_after_keyword "savecommand ".toList S c 12 rfl hS, if_pos (by omega),
    substr_token "savecommand ".toList S c 12 rfl, substr_text "savecommand ".toList S c 12 rfl,
    List.take_of_length_le (by omega)]
  show ∃ h' k, (match findSession h S with | some s => _ | none => _) = Except.ok h' ∧ _
  rw [findSession_of_mem h S (mem_sessions_of_mem_names h S hreg)]
  obtain ⟨k, hk, hlog', hk', hfr, hco, hsh, hrun, href⟩ :=
    appendFile_log h.world (Session.commands_file ⟨S⟩) c L hlog hacc
  exact ⟨_, k, rfl, rfl, rfl, hsh, hco, hrun, href, hlog', hk, hk', hfr⟩

/-- A run of `savecommand` lines for one registered session. -/
theorem route_savecommands (S : Str) (cs : List Str) (h : AIHelper) (L : List Str)
    (hS : sp ∉ S) (hreg : S ∈ h.names)
    (hlen : ∀ c ∈ cs, ("savecommand ".toList ++ (S ++ sp :: c)).length < npos)
    (hlog : LogHasLines h.world (Session.commands_file ⟨S⟩) L)
    (hacc : Accepts h.world (Session.commands_file ⟨S⟩)) :
    ∃ h' k, route h (cs.map (fun c => "savecommand ".toList ++ (S ++ sp :: c))) = .ok h' ∧
      h'.sessions = h.sessions ∧ h'.todo_list = h.todo_list ∧
      h'.world.shell = h.world.shell ∧ h'.world.cout = h.world.cout ∧
      h'.world.run = h.world.run ∧ h'.world.refused = h.world.refused ∧
      LogHasLines h'.world (Session.commands_file ⟨S⟩) (L ++ cs) ∧
      openW h.world (Session.commands_file ⟨S⟩) = some k ∧
      openW h'.world (Session.commands_file ⟨S⟩) = some k ∧
      ∀ q, q ≠ k → h'.world.fs q = h.world.fs q := by
  induction cs generalizing h L with
  | nil =>
    obtain ⟨k, hk, _⟩ := (logHasLines_iff _ _ _).1 hlog
    refine ⟨h, k, rfl, rfl, rfl, rfl, rfl, rfl, rfl, ?_, hk, hk, fun _ _ => rfl⟩
    rw [List.append_nil]
    exact hlog
  | cons c t ih =>
    obtain ⟨h1, k, e1, s1, t1, sh1, co1, ru1, re1, log1, k0, k1, fr1⟩ :=
      savecommand_step h S c L hS hreg (hlen c (List.mem_cons_self _ _)) hlog hacc
    have hreg1 : S ∈ h1.names := by
      unfold AIHelper.names at hreg ⊢
      rw [s1]
      exact hreg
    have hacc1 : Accepts h1.world (Session.commands_file ⟨S⟩) := by
      unfold Accepts
      rw [re1]
      exact hacc
    obtain ⟨h2, k', e2, s2, t2, sh2, co2, ru2, re2, log2, k1', k2, fr2⟩ :=
      ih h1 (L ++ [c]) hreg1 (fun x hx => hlen x (List.mem_cons_of_mem _ hx)) log1 hacc1
    have hkk : k' = k := by
      rw [k1] at k1'
      exact (Option.some.inj k1').symm
    subst hkk
    refine ⟨h2, k', ?_, s2.trans s1, t2.trans t1, sh2.trans sh1, co2.trans co1, ru2.trans ru1,
      re2.trans re1, ?_, k0, k2, ?_⟩
    · unfold route at e2 ⊢
      rw [List.map_cons, List.foldlM_cons, e1]
      exact e2
    · rw [List.append_assoc] at log2
      exact log2
    · intro q hq
      rw [fr2 q hq, fr1 q hq]

/-- The commands section of a playback hands each line's shell form, as a C
string, to the shell, in the order of the lines; the commands it runs act on
the disk through `run`. -/
theorem foldlM_playLine_true (ls : List Str) (w : World) (hl : ∀ l ∈ ls, l.length < 2 ^ 64) :
    ∃ w', ls.foldlM (playLine true) w = .ok w' ∧
      w'.shell = w.shell ++ ls.map (fun l => c_str (shellForm l)) ∧
      w'.run = w.run ∧ w'.refused = w.refused ∧
      ∀ P, (∀ l ∈ ls, ∀ d, lookup (w.run (c_str (shellForm l)) d) P = lookup d P) →
        lookup w'.fs P = lookup w.fs P := by
  induction ls generalizing w with
  | nil => exact ⟨w, rfl, by simp, rfl, rfl, fun _ _ => rfl⟩
  | cons l t ih =>
    have e1 := playLine_true w l (hl l (List.mem_cons_self _ _))
    obtain ⟨w2, e2, s2, r2, f2, k2⟩ :=
      ih (((w.print l).print ("Executing: ".toList ++ shellForm l)).system (shellForm l))
        (fun x hx => hl x (List.mem_cons_of_mem _ hx))
    refine ⟨w2, ?_, ?_, r2, f2, ?_⟩
    · rw [List.foldlM_cons, e1]
      exact e2
    · rw [s2, List.map_cons]
      show (w.shell ++ [c_str (shellForm l)]) ++ _ = _
      rw [List.append_assoc]
      rfl
    · intro P hP
      rw [k2 P (fun x hx d => hP x (List.mem_cons_of_mem _ hx) d)]
      exact hP l (List.mem_cons_self _ _) w.fs

/-- The notes section of a playback executes nothing. -/
theorem foldlM_playLine_false (ls : List Str) (w : World) :
    ∃ w', ls.foldlM (playLine false) w = .ok w' ∧ w'.shell = w.shell ∧ w'.fs = w.fs := by
  induction ls generalizing w with
  | nil => exact ⟨w, rfl, rfl, rfl⟩
  | cons l t ih =>
    obtain ⟨w2, e2, s2, f2⟩ := ih (w.print l)
    refine ⟨w2, ?_, s2, f2⟩
    rw [List.foldlM_cons]
    exact e2

theorem processFile_false (w : World) (p : Str)
    (hacc : w.refused Op.stat w.fs (c_str p) = false) :
    ∃ w', processFile w p false = .ok w' ∧ w'.shell = w.shell ∧ w'.fs = w.fs := by
  unfold processFile
  rw [fsExists_of_accepted w p hacc]
  cases (lookup w.fs p).isSome with
  | true => exact foldlM_playLine_false _ w
  | false => exact ⟨w, rfl, rfl, rfl⟩

theorem lookup_of_open (w : World) (p : Str) (k : Key) (h : openW w p = some k) :
    lookup w.fs p = w.fs.nodeAt k :=
  lookup_of_resolve _ _ _ ((openW_eq_some w p k).1 h).2.1

theorem processFile_true (w : World) (p : Str) (L : List Str) (hlog : LogHasLines w p L)
    (hacc : Accepts w p) (hnl : ∀ l ∈ L, nl ∉ l) (hl : ∀ l ∈ L, l.length < 2 ^ 64) :
    ∃ w', processFile w p true = .ok w' ∧
      w'.shell = w.shell ++ L.map (fun l => c_str (shellForm l)) ∧
      w'.run = w.run ∧ w'.refused = w.refused ∧
      ∀ P, (∀ l ∈ L, ∀ d, lookup (w.run (c_str (shellForm l)) d) P = lookup d P) →
        lookup w'.fs P = lookup w.fs P := by
  obtain ⟨k, hk, hcont⟩ := (logHasLines_iff w p L).1 hlog
  have hlook := lookup_of_open w p k hk
  have hnd := ((openW_eq_some w p k).1 hk).2.2
  unfold processFile
  rw [fsExists_of_accepted w p (hacc _ _)]
  unfold contentAt at hcont
  cases hn : w.fs.nodeAt k with
  | none =>
    rw [hn] at hcont hlook
    have hL : L = [] := unlines_eq_nil L hcont.symm
    rw [hlook, hL]
    exact ⟨w, rfl, by simp, rfl, rfl, fun _ _ => rfl⟩
  | some n =>
    cases n with
    | dir => exact absurd hn hnd
    | file c =>
      rw [hn] at hcont hlook
      have hc : c = unlines L := hcont
      rw [hlook]
      show ∃ w', (readLines w p).foldlM (playLine true) w = Except.ok w' ∧ _
      rw [readLines_of_file w p c (hacc _ _) hlook, hc, getlines_unlines L hnl]
      exact foldlM_playLine_true L w hl

/-- A playback hands the lines of the commands log to the shell, oldest first. -/
theorem playback_shell (s : Session) (w : World) (L : List Str)
    (hlog : LogHasLines w s.commands_file L)
    (hacc : Accepts w s.commands_file) (haccn : Accepts w s.notes_file)
    (hnl : ∀ l ∈ L, nl ∉ l) (hl : ∀ l ∈ L, l.length < 2 ^ 64) :
    ∃ w', s.playback w = .ok w' ∧
      w'.shell = w.shell ++ L.map (fun l => c_str (shellForm l)) ∧
      ∀ P, (∀ l ∈ L, ∀ d, lookup (w.run (c_str (shellForm l)) d) P = lookup d P) →
        lookup w'.fs P = lookup w.fs P := by
  unfold Session.playback
  obtain ⟨w1, e1, s1, r1, f1, k1⟩ := processFile_true
    ((w.print ("Playback for session: ".toList ++ s.name)).print "Commands:".toList)
    s.commands_file L hlog hacc hnl hl
  have hst : (w1.print "Notes:".toList).refused Op.stat (w1.print "Notes:".toList).fs
      (c_str s.notes_file) = false := by
    show w1.refused Op.stat w1.fs (c_str s.notes_file) = false
    rw [f1]
    exact haccn _ _
  obtain ⟨w2, e2, s2, f2⟩ := processFile_false (w1.print "Notes:".toList) s.notes_file hst
  refine ⟨w2, ?_, s2.trans s1, ?_⟩
  · show (processFile ((w.print ("Playback for session: ".toList ++ s.name)).print
      "Commands:".toList) s.commands_file true >>= _) = _
    rw [e1]
    exact e2
  · intro P hP
    rw [f2]
    exact k1 P hP

set_option maxRecDepth 1000000 in
/-- A registered name of 244 letters: the name of its commands log is beyond
`NAME_MAX`, the stream on it does not open, and the saved command is lost. -/
theorem savecommand_lost_for_long_name :
    (route fresh ["newsession ".toList ++ longName,
        "savecommand ".toList ++ longName ++ " x".toList]).map
        (fun h => (h.names, isFolder h.world.fs (Session.commands_path ⟨longName⟩),
          h.world.fs ["root".toList, "craifter".toList, "sessions".toList, longName,
            "commands".toList, longName ++ "_command.txt".toList]))
      = .ok ([longName], true, none) := by
  decide

set_option maxRecDepth 100000 in
/-- The registered name `../x`: its folders and its commands log lie beside
the sessions root, where the path resolves, and the playback reads the log
there. -/
theorem savecommand_for_name_with_dotdot :
    (route fresh ["newsession ../x".toList, "savecommand ../x hi".toList,
        "playback ../x".toList]).map
        (fun h => (h.names,
          h.world.fs ["root".toList, "craifter".toList, "x".toList, "x_command.txt".toList],
          lookup h.world.fs (Session.commands_file ⟨"../x".toList⟩), h.world.shell))
      = .ok (["../x".toList], some (Node.file "hi\n".toList), some (Node.file "hi\n".toList),
          ["hi".toList]) := by
  decide

/-! ## Where the router reads its arguments from the wrong offset -/

set_option maxRecDepth 100000 in
/-- C1, at the failing input.  After `newsession abc`, routing
`savenote abc hello` leaves the notes log of `abc` absent: the name is read
from offset 10, one past the keyword, so the session looked up is `bc`.  The
same line with `savecommand` reaches the commands log. -/
theorem savenote_misses_registered_session :
    (route fresh ["newsession abc".toList, "savenote abc hello".toList]).map
        (fun h => (h.names, lookup h.world.fs (Session.notes_file ⟨"abc".toList⟩)))
      = .ok (["abc".toList], none) ∧
    (route fresh ["newsession abc".toList, "savecommand abc hello".toList]).map
        (fun h => (h.names, lookup h.world.fs (Session.commands_file ⟨"abc".toList⟩)))
      = .ok (["abc".toList], some (Node.file "hello\n".toList)) ∧
    (route fresh ["newsession bc".toList, "newsession abc".toList,
        "savenote abc hello".toList]).map
        (fun h => (lookup h.world.fs (Session.notes_file ⟨"abc".toList⟩),
          lookup h.world.fs (Session.notes_file ⟨"bc".toList⟩)))
      = .ok (none, some (Node.file "hello\n".toList)) := by
  decide

set_option maxRecDepth 100000 in
/-- C8, at the failing input.  With the item `t1` in the list, routing
`updatetodo t1 completed` leaves it pending: the id is read from offset 12, one
past the keyword, so the item looked up is `1`; and were there an item `1`, it
would be the one completed. -/
theorem updatetodo_misses_listed_item :
    (processCommand ⟨[TodoItem.new "t1".toList "Fix".toList Priority.medium], [],
        worldOn freshFS⟩ "updatetodo t1 completed".toList).map (fun h => h.todo_list)
      = .ok [⟨"t1".toList, "Fix".toList, TaskStatus.pending, Priority.medium⟩] ∧
    (processCommand ⟨[TodoItem.new "1".toList "Other".toList Priority.medium,
          TodoItem.new "t1".toList "Fix".toList Priority.medium], [],
        worldOn freshFS⟩ "updatetodo t1 completed".toList).map (fun h => h.todo_list)
      = .ok [⟨"1".toList, "Other".toList, TaskStatus.completed, Priority.medium⟩,
          ⟨"t1".toList, "Fix".toList, TaskStatus.pending, Priority.medium⟩] := by
  decide

set_option maxRecDepth 100000 in
/-- C9, at the failing input.  Routing `addtodo t1 Fix`, a line without a
priority token, adds nothing and prints nothing: the branch asks for a second
blank after the id.  With a task of two words the item is added, its task cut
at the blank. -/
theorem addtodo_without_priority_adds_nothing :
    (processCommand fresh "addtodo t1 Fix".toList).map (fun h => (h.todo_list, h.world.cout))
      = .ok ([], []) ∧
    (processCommand fresh "addtodo t1 Fix it".toList).map (fun h => h.todo_list)
      = .ok [⟨"t1".toList, "Fix".toList, TaskStatus.pending, Priority.medium⟩] ∧
    (processCommand fresh "addtodo t1 Fix high".toList).map (fun h => h.todo_list)
      = .ok [⟨"t1".toList, "Fix".toList, TaskStatus.pending, Priority.high⟩] := by
  decide

end Craifter
